import Mathlib

/-!
Shallow embedding of the Lumira tutoring assistant (MIPhI_project).

Embedded from the Python sources:
* `main.py` — dialog-state normalization, progress-command parsing and the
  per-turn router `process_user_message`;
* `web_app.py` — `verify_telegram_init_data`, the trusted-client
  authenticator;
* `db/sqlite_store.py` — the `test_results` insert contract, modelled as an
  explicit effect log of inserted rows.

External collaborators (the GigaChat agents `run_moderator`, `run_tutor`,
`run_examiner`, `run_analyser`, `start_problem_solver`,
`continue_problem_solver`, `run_summarizer`, the exam parser `format_exam`,
the progress reporter's database reads, and the crypto/JSON library
primitives `hashlib.sha256`, `hmac.new(...).digest`, `json.loads`) are
parameters of the embedding, bundled in `Env` and `WebEnv`.
-/

namespace Lumira

/-- Model of the Python values the dialog state is built from.  Dicts are
insertion-ordered association lists, as in CPython; floats never occur in
the modelled state. -/
inductive PyVal where
  | none : PyVal
  | bool (b : Bool) : PyVal
  | int (n : Int) : PyVal
  | str (s : String) : PyVal
  | list (xs : List PyVal) : PyVal
  | dict (xs : List (PyVal × PyVal)) : PyVal

mutual

/-- Hand-rolled decidable equality for `PyVal` (the derive handler does not
support nested inductives). -/
def PyVal.decEq : (a b : PyVal) → Decidable (a = b)
  | .none, .none => .isTrue rfl
  | .none, .bool _ => .isFalse nofun
  | .none, .int _ => .isFalse nofun
  | .none, .str _ => .isFalse nofun
  | .none, .list _ => .isFalse nofun
  | .none, .dict _ => .isFalse nofun
  | .bool _, .none => .isFalse nofun
  | .bool a, .bool b =>
    if h : a = b then .isTrue (by rw [h]) else .isFalse (by simp [h])
  | .bool _, .int _ => .isFalse nofun
  | .bool _, .str _ => .isFalse nofun
  | .bool _, .list _ => .isFalse nofun
  | .bool _, .dict _ => .isFalse nofun
  | .int _, .none => .isFalse nofun
  | .int _, .bool _ => .isFalse nofun
  | .int a, .int b =>
    if h : a = b then .isTrue (by rw [h]) else .isFalse (by simp [h])
  | .int _, .str _ => .isFalse nofun
  | .int _, .list _ => .isFalse nofun
  | .int _, .dict _ => .isFalse nofun
  | .str _, .none => .isFalse nofun
  | .str _, .bool _ => .isFalse nofun
  | .str _, .int _ => .isFalse nofun
  | .str a, .str b =>
    if h : a = b then .isTrue (by rw [h]) else .isFalse (by simp [h])
  | .str _, .list _ => .isFalse nofun
  | .str _, .dict _ => .isFalse nofun
  | .list _, .none => .isFalse nofun
  | .list _, .bool _ => .isFalse nofun
  | .list _, .int _ => .isFalse nofun
  | .list _, .str _ => .isFalse nofun
  | .list xs, .list ys =>
    match PyVal.decEqList xs ys with
    | .isTrue h => .isTrue (by rw [h])
    | .isFalse h => .isFalse (by simp [h])
  | .list _, .dict _ => .isFalse nofun
  | .dict _, .none => .isFalse nofun
  | .dict _, .bool _ => .isFalse nofun
  | .dict _, .int _ => .isFalse nofun
  | .dict _, .str _ => .isFalse nofun
  | .dict _, .list _ => .isFalse nofun
  | .dict xs, .dict ys =>
    match PyVal.decEqPairs xs ys with
    | .isTrue h => .isTrue (by rw [h])
    | .isFalse h => .isFalse (by simp [h])

def PyVal.decEqList : (xs ys : List PyVal) → Decidable (xs = ys)
  | [], [] => .isTrue rfl
  | [], _ :: _ => .isFalse nofun
  | _ :: _, [] => .isFalse nofun
  | x :: xs, y :: ys =>
    match PyVal.decEq x y, PyVal.decEqList xs ys with
    | .isTrue h1, .isTrue h2 => .isTrue (by rw [h1, h2])
    | .isFalse h1, _ => .isFalse (by simp [h1])
    | _, .isFalse h2 => .isFalse (by simp [h2])

def PyVal.decEqPairs :
    (xs ys : List (PyVal × PyVal)) → Decidable (xs = ys)
  | [], [] => .isTrue rfl
  | [], _ :: _ => .isFalse nofun
  | _ :: _, [] => .isFalse nofun
  | (k, v) :: xs, (l, w) :: ys =>
    match PyVal.decEq k l, PyVal.decEq v w, PyVal.decEqPairs xs ys with
    | .isTrue h1, .isTrue h2, .isTrue h3 =>
      .isTrue (by rw [h1, h2, h3])
    | .isFalse h1, _, _ => .isFalse (by simp [h1])
    | _, .isFalse h2, _ => .isFalse (by simp [h2])
    | _, _, .isFalse h3 => .isFalse (by simp [h3])

end

instance : DecidableEq PyVal := PyVal.decEq

/-- Decidable equality on `Except` results, for evaluating the embedding on
concrete inputs. -/
instance {ε α : Type} [DecidableEq ε] [DecidableEq α] :
    DecidableEq (Except ε α) := fun a b =>
  match a, b with
  | .ok x, .ok y =>
    if h : x = y then .isTrue (by rw [h]) else .isFalse (by simp [h])
  | .error x, .error y =>
    if h : x = y then .isTrue (by rw [h]) else .isFalse (by simp [h])
  | .ok _, .error _ => .isFalse nofun
  | .error _, .ok _ => .isFalse nofun

/-- Python exceptions that the embedded fragment can raise. -/
inductive PyErr where
  | typeError : PyErr
  | keyError : PyErr
deriving DecidableEq

/-- `True`/`False` as the ints Python coerces them to. -/
def pyBoolInt (b : Bool) : Int := if b then 1 else 0

mutual
/-- Python `==` on the modelled values: numeric cross-type equality between
`bool` and `int`, structural equality elsewhere. -/
def pyEq : PyVal → PyVal → Bool
  | .none, .none => true
  | .bool a, .bool b => a == b
  | .bool a, .int n => pyBoolInt a == n
  | .int n, .bool b => n == pyBoolInt b
  | .int m, .int n => m == n
  | .str s, .str t => s == t
  | .list xs, .list ys => pyEqList xs ys
  | .dict xs, .dict ys => pyEqPairs xs ys
  | _, _ => false

def pyEqList : List PyVal → List PyVal → Bool
  | [], [] => true
  | x :: xs, y :: ys => pyEq x y && pyEqList xs ys
  | _, _ => false

def pyEqPairs : List (PyVal × PyVal) → List (PyVal × PyVal) → Bool
  | [], [] => true
  | (k, v) :: xs, (l, w) :: ys => pyEq k l && pyEq v w && pyEqPairs xs ys
  | _, _ => false
end

/-- Dict lookup by Python equality (first matching key; real dicts keep keys
unique up to `==`). -/
def dictLookup : List (PyVal × PyVal) → PyVal → Option PyVal
  | [], _ => Option.none
  | (k', v) :: rest, k => if pyEq k' k then some v else dictLookup rest k

/-- Dict item assignment: overwrite in place (keeping the original key
object, as CPython does) or append. -/
def dictSet : List (PyVal × PyVal) → PyVal → PyVal → List (PyVal × PyVal)
  | [], k, v => [(k, v)]
  | (k', v') :: rest, k, v =>
    if pyEq k' k then (k', v) :: rest else (k', v') :: dictSet rest k v

def dictContains (d : List (PyVal × PyVal)) (k : PyVal) : Bool :=
  (dictLookup d k).isSome

/-- Substring search on character lists (structural, so that concrete
instances evaluate inside the kernel). -/
def infixChars : List Char → List Char → Bool
  | needle, [] => needle.isEmpty
  | needle, hay@(_ :: rest) => needle.isPrefixOf hay || infixChars needle rest

/-- `needle in hay` for strings.  Python's `in` on `str` is a substring
test; an empty needle always matches. -/
def strContainsSub (hay needle : String) : Bool :=
  infixChars needle.data hay.data

/-- Python's `x in v` for the containers the source exercises.  A string
container demands a string operand; non-container values raise
`TypeError`. -/
def pyContains (v : PyVal) (x : PyVal) : Except PyErr Bool :=
  match v with
  | .dict d => .ok (dictContains d x)
  | .list xs => .ok (xs.any fun el => pyEq el x)
  | .str s =>
    match x with
    | .str t => .ok (strContainsSub s t)
    | _ => .error .typeError
  | _ => .error .typeError

/-- `v[k]` for the string keys the source uses: dict lookup (a missing key
raises `KeyError`); subscripting any non-dict with a string key raises
`TypeError` in Python. -/
def getItem (v : PyVal) (k : PyVal) : Except PyErr PyVal :=
  match v with
  | .dict d =>
    match dictLookup d k with
    | some x => .ok x
    | Option.none => .error .keyError
  | _ => .error .typeError

/-- `v[k] = x` for the string keys the source uses: dict assignment;
assigning into any non-dict with a string key raises `TypeError`. -/
def setItem (v : PyVal) (k x : PyVal) : Except PyErr PyVal :=
  match v with
  | .dict d => .ok (.dict (dictSet d k x))
  | _ => .error .typeError

/-- Total dict assignment, used to state results about values already known
to be dicts (`setItem` then never fails). -/
def pySetD (v : PyVal) (k x : PyVal) : PyVal :=
  match v with
  | .dict d => .dict (dictSet d k x)
  | _ => v

/-- Python truthiness of the modelled values. -/
def pyTruthy : PyVal → Bool
  | .none => false
  | .bool b => b
  | .int n => n != 0
  | .str s => s ≠ ""
  | .list xs => !xs.isEmpty
  | .dict d => !d.isEmpty

mutual
/-- Python `repr` of the modelled values.  String quoting is simplified to
plain single quotes (exact for quote-free strings; the claims only ever
stringify quote-free values). -/
def pyRepr : PyVal → String
  | .none => "None"
  | .bool true => "True"
  | .bool false => "False"
  | .int n => toString n
  | .str s => "'" ++ s ++ "'"
  | .list xs => "[" ++ pyReprList xs ++ "]"
  | .dict d => "\x7b" ++ pyReprPairs d ++ "\x7d"

def pyReprList : List PyVal → String
  | [] => ""
  | [x] => pyRepr x
  | x :: xs => pyRepr x ++ ", " ++ pyReprList xs

def pyReprPairs : List (PyVal × PyVal) → String
  | [] => ""
  | [(k, v)] => pyRepr k ++ ": " ++ pyRepr v
  | (k, v) :: xs => pyRepr k ++ ": " ++ pyRepr v ++ ", " ++ pyReprPairs xs
end

/-- Python `str(...)`: the identity on strings, `repr` on everything the
state can contain. -/
def pyStr : PyVal → String
  | .str s => s
  | v => pyRepr v

/-- The ASCII-plus-Cyrillic fragment of Python `str.upper`, applied
character-wise (the alphabets the modelled data uses; `str.upper` is
character-wise on them). -/
def pyUpperChar (c : Char) : Char :=
  if 97 ≤ c.toNat ∧ c.toNat ≤ 122 then Char.ofNat (c.toNat - 32)
  else if 0x430 ≤ c.toNat ∧ c.toNat ≤ 0x44F then Char.ofNat (c.toNat - 32)
  else if c.toNat = 0x451 then Char.ofNat 0x401
  else c

def pyUpper (s : String) : String := String.mk (s.data.map pyUpperChar)

/-- The ASCII-plus-Cyrillic fragment of Python `str.lower`, applied
character-wise. -/
def pyLowerChar (c : Char) : Char :=
  if 65 ≤ c.toNat ∧ c.toNat ≤ 90 then Char.ofNat (c.toNat + 32)
  else if 0x410 ≤ c.toNat ∧ c.toNat ≤ 0x42F then Char.ofNat (c.toNat + 32)
  else if c.toNat = 0x401 then Char.ofNat 0x451
  else c

def pyLower (s : String) : String := String.mk (s.data.map pyLowerChar)

/-- Strip leading and trailing whitespace from a character list. -/
def trimChars (l : List Char) : List Char :=
  ((l.dropWhile Char.isWhitespace).reverse.dropWhile Char.isWhitespace).reverse

/-- Python `str.strip()` (the whitespace the claims exercise is ASCII). -/
def pyStrip (s : String) : String := String.mk (trimChars s.data)

/-- A non-empty all-digit character run as a number. -/
def digitsToNat (ds : List Char) : Option Nat :=
  if ds ≠ [] ∧ ds.all Char.isDigit then
    some (ds.foldl (fun a c => a * 10 + (c.toNat - 48)) 0)
  else Option.none

/-- Python `int(s)` on a string: optional sign around a digit run after
stripping whitespace, else `ValueError` (the source catches it).
Underscore separators and non-ASCII digits, which CPython also accepts,
never occur in the modelled data. -/
def pyIntOfStr (s : String) : Option Int :=
  match trimChars s.data with
  | '-' :: ds => (digitsToNat ds).map fun n => -(n : Int)
  | '+' :: ds => (digitsToNat ds).map fun n => (n : Int)
  | ds => (digitsToNat ds).map fun n => (n : Int)

/-- Python `int(key)` as used in `normalize_state`, with `ValueError` /
`TypeError` collapsed into `none` (the source catches both and skips the
entry). -/
def pyInt : PyVal → Option Int
  | .int n => some n
  | .bool b => some (pyBoolInt b)
  | .str s => pyIntOfStr s
  | _ => Option.none

/-- The nested `problem_solver` defaults of `create_initial_state`
(main.py:34-39). -/
def nestedBase : List (PyVal × PyVal) :=
  [ (.str "active", .bool false),
    (.str "topic", .none),
    (.str "steps", .list []),
    (.str "current_step", .int 0) ]

/-- The association list behind `create_initial_state` (main.py:26). -/
def baseItems : List (PyVal × PyVal) :=
  [ (.str "tutor_history", .list []),
    (.str "last_topic", .none),
    (.str "current_test", .none),
    (.str "problem_solver", .dict nestedBase) ]

/-- `create_initial_state` (main.py:26): the clean dialog state. -/
def create_initial_state : PyVal := .dict baseItems

/-- The nested fill of `normalize_state` (main.py:56-58): for each missing
nested key of `state[key]`, assign the default.  `state[key]` is re-read
each iteration, as in the source; membership tests and item assignment on
non-dict values raise exactly where Python does. -/
def fillNestedLoop (st : PyVal) (key : PyVal) :
    List (PyVal × PyVal) → Except PyErr PyVal
  | [] => .ok st
  | (nk, nd) :: rest => do
    let v ← getItem st key
    let b ← pyContains v nk
    if b then
      fillNestedLoop st key rest
    else do
      let v' ← setItem v nk nd
      let st' ← setItem st key v'
      fillNestedLoop st' key rest

/-- The top-level fill of `normalize_state` (main.py:51-58): add each
absent key, and recursively fill the keys of dict-valued defaults. -/
def fillTopLoop (st : PyVal) : List (PyVal × PyVal) → Except PyErr PyVal
  | [] => .ok st
  | (key, dv) :: rest => do
    let b ← pyContains st key
    let st' ←
      if !b then setItem st key dv
      else
        match dv with
        | .dict nds => fillNestedLoop st key nds
        | _ => pure st
    fillTopLoop st' rest

/-- Overwrite-or-append on the freshly built `normalized_test` dict (its
keys are plain ints). -/
def intDictSet : List (Int × String) → Int → String → List (Int × String)
  | [], i, s => [(i, s)]
  | (j, t) :: rest, i, s =>
    if j = i then (j, s) :: rest else (j, t) :: intDictSet rest i s

/-- The `current_test` rebuild loop of `normalize_state` (main.py:62-67):
`normalized_test[int(key)] = str(value).upper()`, skipping keys on
`ValueError`/`TypeError`. -/
def rebuildTestLoop : List (PyVal × PyVal) → List (Int × String) →
    List (Int × String)
  | [], acc => acc
  | (k, v) :: rest, acc =>
    match pyInt k with
    | some i => rebuildTestLoop rest (intDictSet acc i (pyUpper (pyStr v)))
    | Option.none => rebuildTestLoop rest acc

/-- Inject the rebuilt answer key back into `PyVal`. -/
def injectTest (l : List (Int × String)) : List (PyVal × PyVal) :=
  l.map fun p => (.int p.1, .str p.2)

/-- `state.get("current_test")` after the fill loop. -/
def pyDictGet (v : PyVal) (k : PyVal) : PyVal :=
  match v with
  | .dict d => (dictLookup d k).getD .none
  | _ => .none

/-- The `current_test` rebuild of `normalize_state` (main.py:60-68):
applied when the field holds a dict, the identity otherwise. -/
def rebuildField (st ctv : PyVal) : Except PyErr PyVal :=
  match ctv with
  | .dict entries =>
    let nt := rebuildTestLoop entries []
    setItem st (.str "current_test")
      (if nt.isEmpty then .none else .dict (injectTest nt))
  | _ => .ok st

/-- `normalize_state` (main.py:43-70).  Returns `Except` because the nested
fill raises `TypeError` in Python when a present `problem_solver` value is
not a container that supports item assignment. -/
def normalize_state (state : PyVal) : Except PyErr PyVal :=
  match state with
  | .dict _ => do
    let st ← fillTopLoop state baseItems
    rebuildField st (pyDictGet st (.str "current_test"))
  | _ => .ok create_initial_state

/-- Python `str.split(maxsplit=1)`: at most one split on a whitespace run;
leading whitespace is skipped, the remainder after the first run is kept
verbatim. -/
def pySplitMax1 (s : String) : List String :=
  let t := s.data.dropWhile Char.isWhitespace
  if t.isEmpty then []
  else
    let tok := t.takeWhile fun c => !c.isWhitespace
    let rest := (t.drop tok.length).dropWhile Char.isWhitespace
    if rest.isEmpty then [String.mk tok]
    else [String.mk tok, String.mk rest]

/-- `_parse_progress_command` (main.py:73-83). -/
def _parse_progress_command (user_text : String) : Bool × Option String :=
  let lowered := pyStrip (pyLower user_text)
  if ¬ ("progress".data.isPrefixOf lowered.data) then (false, Option.none)
  else
    let parts := pySplitMax1 user_text
    let topic_filter :=
      match parts with
      | _ :: p :: _ =>
        if pyStrip p = "" then Option.none else some (pyStrip p)
      | _ => Option.none
    (true, topic_filter)

/-! ## The per-turn router (`process_user_message`, main.py:120-220) -/

/-- One row of the `test_results` table as inserted by `save_test_result`
(db/sqlite_store.py:57-66); `process_user_message` is modelled with an
explicit log of the rows it inserts. -/
structure TestRow where
  topic : PyVal
  score : Nat
  total : Nat
  percent : Nat
  user_answers : String
deriving DecidableEq

/-- The external collaborators `process_user_message` calls: the GigaChat
agents, the exam parser and the progress reporter (all outside `src`'s
modelled core; the classifier's two ints are kept raw, as the source
branches on them).  The analyser's score and total are counts, hence
`Nat`. -/
structure Env where
  run_moderator : String → String → Int × Int
  run_tutor : String → String → PyVal → String × PyVal
  run_examiner : String → PyVal → String
  format_exam : String → String × PyVal × String
  run_analyser : PyVal → String → String × Nat × Nat
  start_problem_solver : String → String → String × PyVal
  continue_problem_solver : String → PyVal → String → String × PyVal
  run_summarizer : String → String → String
  show_progress : Option String → String

/-- The fixed answer-format instructions of the examiner branch
(main.py:170-177). -/
def examInstructions : String :=
  "\nКак отвечать на тесты\n" ++
  "Пишите только в формате:\n" ++
  "1a 2c 3b 4d 5a\n" ++
  "Где:\n" ++
  "число — номер вопроса,\n" ++
  "буква — выбранный вариант ответа."

/-- Reply of the analyser branch when no test is outstanding
(main.py:195). -/
def noTestReply : String := "Нет теста для проверки!"

/-- Reply of the defensive fallthrough branch (main.py:218). -/
def unknownModeReply : String :=
  "Неизвестный режим, модератор вернул странный код."

/-- Prompt returned on blank input (main.py:128 and main.py:153). -/
def emptyPrompt : String := "Пожалуйста, введите запрос."

/-- The affirmative set of the problem-solver continuation gate
(main.py:140). -/
def yes_words : List String :=
  ["yes", "y", "да", "ага", "понял", "поняла", "понял.", "поняла."]

/-- The negative set of the problem-solver continuation gate
(main.py:141). -/
def no_words : List String :=
  ["no", "n", "нет", "неа", "не", "не понял", "не поняла"]

/-! ### Binary64 arithmetic: the float semantics of `score / total * 100` -/

/-- `2 ^ k` by square-and-multiply on the binary digits of `k`, driven by
fuel (12 digits cover every exponent below `2 ^ 12`, far beyond the
`[-1200, 1200]` clamp used here). -/
def pow2Aux : Nat → Nat → Nat
  | 0, _ => 1
  | _ + 1, 0 => 1
  | fuel + 1, k =>
    let h := pow2Aux fuel (k / 2)
    if k % 2 = 0 then h * h else 2 * h * h

def pow2 (k : Nat) : Nat := pow2Aux 12 k

/-- `2 ^ e ≤ n / d` for an integer exponent, by exact natural
comparison. -/
def le2exp (e : ℤ) (n d : Nat) : Bool :=
  if 0 ≤ e then decide (d * pow2 e.toNat ≤ n)
  else decide (d ≤ n * pow2 (-e).toNat)

/-- Largest `e` in `[lo, hi]` with `2 ^ e ≤ n / d`, by bounded binary
search; the fuel strictly exceeds `log₂ (hi - lo + 1)` at the one call
site. -/
def expSearch : Nat → ℤ → ℤ → Nat → Nat → ℤ
  | 0, lo, _, _, _ => lo
  | fuel + 1, lo, hi, n, d =>
    if hi ≤ lo then lo
    else
      let mid := lo + (hi - lo + 1) / 2
      if le2exp mid n d then expSearch fuel mid hi n d
      else expSearch fuel lo (mid - 1) n d

/-- The binary64 exponent of a positive `n / d`: the `e` with
`2 ^ e ≤ n / d < 2 ^ (e + 1)`, clamped to `[-1200, 1200]` (strictly wider
than the finite-double exponent range `[-1074, 1023]`). -/
def exponentOf (n d : Nat) : ℤ := expSearch 14 (-1200) 1200 n d

/-- Round `N / D` to the nearest integer, ties to even. -/
def rneNat (N D : Nat) : Nat :=
  let q := N / D
  let r := N % D
  if 2 * r < D then q
  else if D < 2 * r then q + 1
  else if q % 2 = 0 then q else q + 1

/-- The correctly rounded (round-to-nearest-even) binary64 quotient of two
nonnegative integers, as significand and exponent (the value is
`M · 2 ^ E`, with `2 ^ 52 ≤ M < 2 ^ 53` unless the value is zero);
CPython's `int.__truediv__` computes exactly this. -/
def divSig (n d : Nat) : Nat × ℤ :=
  if n = 0 ∨ d = 0 then (0, 0)
  else
    let e := exponentOf n d
    let M := if e ≤ 52 then rneNat (n * pow2 (52 - e).toNat) d
             else rneNat n (d * pow2 (e - 52).toNat)
    if M = pow2 53 then (pow2 52, e - 51) else (M, e - 52)

/-- Binary64 multiplication of a nonnegative double by the exactly
representable `100`: the exact (at most 60-bit) product of significands is
rounded back to 53 bits. -/
def mul100Sig (p : Nat × ℤ) : Nat × ℤ :=
  let M := p.1 * 100
  if M = 0 then (0, 0)
  else
    let s : Nat :=
      if M < pow2 53 then 0 else if M < pow2 54 then 1
      else if M < pow2 55 then 2 else if M < pow2 56 then 3
      else if M < pow2 57 then 4 else if M < pow2 58 then 5
      else if M < pow2 59 then 6 else 7
    let M2 := rneNat M (pow2 s)
    if M2 = pow2 53 then (pow2 52, p.2 + (s : ℤ) + 1)
    else (M2, p.2 + (s : ℤ))

/-- Python `int(x)` on a nonnegative double: truncation. -/
def truncSig (p : Nat × ℤ) : Nat :=
  if 0 ≤ p.2 then p.1 * pow2 p.2.toNat else p.1 / pow2 (-p.2).toNat

/-- `int(score / total * 100)` (main.py:198) exactly as CPython evaluates
it: correctly rounded binary64 division of the two integers, binary64
multiplication by `100`, truncation toward zero.  This can fall below the
exact `⌊score · 100 / total⌋`: for 29 of 50 it yields 57, not 58.
Sub-normal quotients (below `2 ^ (-1022)`, so `total` beyond `2 ^ 1022`)
give a product below `1` that truncates to `0` here and in CPython alike,
so only normal-range rounding is ever exercised; quotients at or beyond
`2 ^ 1024` would raise OverflowError in CPython and lie outside the
analyser's score ≤ total contract. -/
def pyPercent (score total : Nat) : Nat :=
  truncSig (mul100Sig (divSig score total))

/-- The classification-dispatch tail of `process_user_message`
(main.py:155-220): call the moderator, overwrite `last_topic` on the
topic-change signal, then branch on the agent selector.  The value
`percent = int(score / total * 100)` is Python binary64 float division
truncated by `int(...)`, modelled bit-exactly by `pyPercent`. -/
def dispatch (env : Env) (access_token request_text : String)
    (st : PyVal) : Except PyErr (String × PyVal × List TestRow) := do
  let (agent_id, change_topic) := env.run_moderator access_token request_text
  let st ←
    if change_topic = 1 then
      setItem st (.str "last_topic") (.str request_text)
    else pure st
  if agent_id = 1 then do
    let hist ← getItem st (.str "tutor_history")
    let (answer, hist') := env.run_tutor access_token request_text hist
    let st ← setItem st (.str "tutor_history") hist'
    return (answer, st, [])
  else if agent_id = 2 then do
    let lt ← getItem st (.str "last_topic")
    let (topic, st) ←
      if lt = PyVal.none then do
        let st ← setItem st (.str "last_topic") (.str request_text)
        pure (PyVal.str request_text, st)
      else pure (lt, st)
    let raw_test := env.run_examiner access_token topic
    let (questions_text, answers_dict, theme) := env.format_exam raw_test
    let st ← setItem st (.str "last_topic") (.str theme)
    let st ← setItem st (.str "current_test") answers_dict
    return (examInstructions ++ "\n\n" ++ questions_text, st, [])
  else if agent_id = 3 then do
    let ct ← getItem st (.str "current_test")
    if ct = PyVal.none then
      return (noTestReply, st, [])
    else do
      let (report_text, score, total) := env.run_analyser ct request_text
      let percent := if 0 < total then pyPercent score total else 0
      let lt ← getItem st (.str "last_topic")
      let st ← setItem st (.str "current_test") PyVal.none
      return (report_text, st, [⟨lt, score, total, percent, request_text⟩])
  else if agent_id = 4 then do
    let (answer, ps_state) :=
      env.start_problem_solver access_token request_text
    let st ← setItem st (.str "problem_solver") ps_state
    return (answer, st, [])
  else if agent_id = 5 then
    return (env.run_summarizer access_token request_text, st, [])
  else
    return (unknownModeReply, st, [])

/-- `process_user_message` (main.py:120-220): normalize the state, handle
blank input, the progress command and the active problem-solver
continuation, then fall through to classification dispatch.  The third
component logs the `save_test_result` inserts the turn performs. -/
def process_user_message (env : Env) (access_token user_text : String)
    (state : PyVal) : Except PyErr (String × PyVal × List TestRow) := do
  let st ← normalize_state state
  if user_text = "" then
    return (emptyPrompt, st, [])
  else
    let request_text := pyStrip user_text
    let pc := _parse_progress_command request_text
    if pc.1 then
      return (env.show_progress pc.2, st, [])
    else do
      let ps ← getItem st (.str "problem_solver")
      let active ← getItem ps (.str "active")
      let normalized := pyLower request_text
      if pyTruthy active &&
          (yes_words.contains normalized || no_words.contains normalized) then do
        let (answer, ps') :=
          env.continue_problem_solver access_token ps request_text
        let st ← setItem st (.str "problem_solver") ps'
        return (answer, st, [])
      else if request_text = "" then
        return (emptyPrompt, st, [])
      else
        dispatch env access_token request_text st

/-! ## The trusted-client authenticator
(`verify_telegram_init_data`, web_app.py:96-132)

The payload is processed at the byte level (UTF-8 code units of the Python
`str`); byte-wise lexicographic order on UTF-8 coincides with Python's
code-point string order, so `sorted(parsed.items())` is modelled
faithfully by sorting the byte lists. -/

/-- UTF-8 encoding of one code point. -/
def utf8Enc (c : Char) : List Nat :=
  let n := c.toNat
  if n < 0x80 then [n]
  else if n < 0x800 then [0xC0 + n / 0x40, 0x80 + n % 0x40]
  else if n < 0x10000 then
    [0xE0 + n / 0x1000, 0x80 + n / 0x40 % 0x40, 0x80 + n % 0x40]
  else
    [0xF0 + n / 0x40000, 0x80 + n / 0x1000 % 0x40, 0x80 + n / 0x40 % 0x40,
     0x80 + n % 0x40]

/-- UTF-8 bytes of a string (Python `str.encode()`). -/
def strBytes (s : String) : List Nat := s.data.flatMap utf8Enc

/-- Split a byte list on a separator byte, keeping empty chunks (the
`qs.split('&')` of `urllib.parse.parse_qsl`). -/
def splitOnByte (sep : Nat) : List Nat → List (List Nat)
  | [] => [[]]
  | b :: rest =>
    let r := splitOnByte sep rest
    if b = sep then [] :: r
    else
      match r with
      | c :: cs => (b :: c) :: cs
      | [] => [[b]]

/-- Split a chunk at the first `'='` (byte 61): `name_value.split('=', 1)`.
Returns the name and, when a `'='` was found, the value. -/
def splitEq : List Nat → List Nat × Option (List Nat)
  | [] => ([], Option.none)
  | b :: rest =>
    if b = 61 then ([], some rest)
    else
      let r := splitEq rest
      (b :: r.1, r.2)

/-- Value of an ASCII hex digit. -/
def hexVal (b : Nat) : Option Nat :=
  if 48 ≤ b ∧ b ≤ 57 then some (b - 48)
  else if 97 ≤ b ∧ b ≤ 102 then some (b - 87)
  else if 65 ≤ b ∧ b ≤ 70 then some (b - 55)
  else Option.none

/-- `urllib.parse.unquote_plus` at the byte level: `'+'` becomes space and
`%XX` hex escapes are decoded; a `'%'` not followed by two hex digits is
kept literally.  (CPython additionally round-trips the decoded bytes
through UTF-8 with replacement characters; the payloads the claims
quantify over are unaffected.) -/
def unquotePlus : List Nat → List Nat
  | [] => []
  | 43 :: rest => 32 :: unquotePlus rest
  | 37 :: h1 :: h2 :: rest =>
    match hexVal h1, hexVal h2 with
    | some a, some b => (16 * a + b) :: unquotePlus rest
    | _, _ => 37 :: unquotePlus (h1 :: h2 :: rest)
  | b :: rest => b :: unquotePlus rest

/-- Parse one `&`-separated chunk as `parse_qsl(..., keep_blank_values=True)`
does: empty chunks are dropped, a chunk without `'='` keeps a blank
value. -/
def parseChunk (chunk : List Nat) : Option (List Nat × List Nat) :=
  if chunk.isEmpty then Option.none
  else
    match splitEq chunk with
    | (n, some v) => some (unquotePlus n, unquotePlus v)
    | (n, Option.none) => some (unquotePlus n, [])

/-- `urllib.parse.parse_qsl(init_data, keep_blank_values=True)`
(web_app.py:105). -/
def parse_qsl (data : List Nat) : List (List Nat × List Nat) :=
  (splitOnByte 38 data).filterMap parseChunk

/-- Overwrite-or-append on a byte-keyed association list (one `d[k] = v`
step of the `dict(...)` collapse; CPython keeps the first key's position
and the last value). -/
def bDictSet (d : List (List Nat × List Nat)) (k v : List Nat) :
    List (List Nat × List Nat) :=
  match d with
  | [] => [(k, v)]
  | (k', v') :: rest =>
    if k' = k then (k', v) :: rest else (k', v') :: bDictSet rest k v

/-- `dict(pairs)` — later occurrences of a key overwrite earlier ones
(web_app.py:105). -/
def toDict (pairs : List (List Nat × List Nat)) :
    List (List Nat × List Nat) :=
  pairs.foldl (fun d p => bDictSet d p.1 p.2) []

def bLookup (d : List (List Nat × List Nat)) (k : List Nat) :
    Option (List Nat) :=
  match d with
  | [] => Option.none
  | (k', v) :: rest => if k' = k then some v else bLookup rest k

/-- `parsed.pop("hash", None)`'s removal effect. -/
def bRemove (d : List (List Nat × List Nat)) (k : List Nat) :
    List (List Nat × List Nat) :=
  match d with
  | [] => []
  | (k', v) :: rest =>
    if k' = k then rest else (k', v) :: bRemove rest k

/-- Byte-wise (equivalently, code-point-wise) strict lexicographic order on
keys, the order `sorted` uses. -/
def bytesLt : List Nat → List Nat → Bool
  | [], [] => false
  | [], _ :: _ => true
  | _ :: _, [] => false
  | a :: as, b :: bs => a < b || (a = b && bytesLt as bs)

/-- Stable insertion into a sorted pair list. -/
def insertPair (p : List Nat × List Nat) :
    List (List Nat × List Nat) → List (List Nat × List Nat)
  | [] => [p]
  | q :: rest =>
    if bytesLt q.1 p.1 then q :: insertPair p rest else p :: q :: rest

/-- `sorted(parsed.items())`: the dict's keys are unique, so comparison by
key alone determines the order. -/
def sortPairs (l : List (List Nat × List Nat)) :
    List (List Nat × List Nat) :=
  l.foldr insertPair []

/-- The canonical data-check string
`"\n".join(f"{k}={v}" for k, v in sorted(parsed.items()))`
(web_app.py:110-112), at the byte level. -/
def dataCheckString (parsed : List (List Nat × List Nat)) : List Nat :=
  List.intercalate [10] ((sortPairs parsed).map fun p => p.1 ++ [61] ++ p.2)

/-- Lowercase hex encoding of a byte sequence (`.hexdigest()`), as
bytes. -/
def hexByteChars (b : Nat) : List Nat :=
  let lo := b % 256
  let dig := fun n => if n < 10 then 48 + n else 87 + n
  [dig (lo / 16), dig (lo % 16)]

def hexEncode (l : List Nat) : List Nat := l.flatMap hexByteChars

/-- The library primitives `verify_telegram_init_data` calls:
`hashlib.sha256(...).digest()`, `hmac.new(key, msg, sha256).hexdigest()`
(split into the raw digest plus the Lean-side `hexEncode`) and
`json.loads` (returning `none` on `JSONDecodeError`). -/
structure WebEnv where
  sha256 : List Nat → List Nat
  hmac_sha256 : List Nat → List Nat → List Nat
  json_loads : List Nat → Option PyVal

/-- `raise HTTPException(status_code=..., detail=...)`. -/
structure HTTPError where
  status : Nat
  detail : String
deriving DecidableEq

def hashKey : List Nat := strBytes "hash"

def userKey : List Nat := strBytes "user"

/-- The byte-level core of `verify_telegram_init_data` (web_app.py:96-132).
`hmac.compare_digest` is modelled as equality (its constant-time behaviour
is a timing property outside the embedding).  The detail strings are the
exact literals of the source file (which stores mojibake bytes). -/
def verifyBytes (w : WebEnv) (TELEGRAM_BOT_TOKEN : String)
    (data : List Nat) : Except HTTPError PyVal :=
  if TELEGRAM_BOT_TOKEN = "" then
    .error ⟨500, "TELEGRAM_BOT_TOKEN –Ω–µ –Ω–∞—Å—Ç—Ä–æ–µ–Ω –Ω–∞ —Å–µ—Ä–≤–µ—Ä–µ."⟩
  else if data = [] then
    .error ⟨400, "–ü—É—Å—Ç—ã–µ –¥–∞–Ω–Ω—ã–µ Telegram."⟩
  else
    let parsed0 := toDict (parse_qsl data)
    let init_hash := bLookup parsed0 hashKey
    let parsed := bRemove parsed0 hashKey
    match init_hash with
    | Option.none => .error ⟨400, "–ù–µ—Ç hash –≤ initData."⟩
    | some h =>
      if h = [] then .error ⟨400, "–ù–µ—Ç hash –≤ initData."⟩
      else
        let secret_key := w.sha256 (strBytes TELEGRAM_BOT_TOKEN)
        let calculated_hash :=
          hexEncode (w.hmac_sha256 secret_key (dataCheckString parsed))
        if calculated_hash ≠ h then
          .error ⟨403, "–ù–µ–≤–µ—Ä–Ω–∞—è –ø–æ–¥–ø–∏—Å—å Telegram."⟩
        else
          match bLookup parsed userKey with
          | Option.none => .error ⟨400, "–ù–µ—Ç user –≤ initData."⟩
          | some uj =>
            if uj = [] then .error ⟨400, "–ù–µ—Ç user –≤ initData."⟩
            else
              match w.json_loads uj with
              | Option.none =>
                .error ⟨400, "–ù–µ–∫–æ—Ä—Ä–µ–∫—Ç–Ω—ã–π JSON user."⟩
              | some user => .ok user

/-- `verify_telegram_init_data(init_data)` (web_app.py:96-132), with the
configured `TELEGRAM_BOT_TOKEN` explicit.  `init_data` is empty iff its
UTF-8 byte sequence is, so the emptiness guard lives in `verifyBytes`. -/
def verify_telegram_init_data (w : WebEnv) (TELEGRAM_BOT_TOKEN : String)
    (init_data : String) : Except HTTPError PyVal :=
  verifyBytes w TELEGRAM_BOT_TOKEN (strBytes init_data)

/-! ## Infrastructure lemmas -/

theorem except_bind_ok {ε α β : Type} (a : α) (f : α → Except ε β) :
    (Except.ok a >>= f : Except ε β) = f a := rfl

theorem pyEq_str_iff (k : PyVal) (s : String) :
    pyEq k (.str s) = true ↔ k = .str s := by
  cases k <;> simp [pyEq]

theorem dictLookup_dictSet_str_self (d : List (PyVal × PyVal)) (a : String)
    (x : PyVal) : dictLookup (dictSet d (.str a) x) (.str a) = some x := by
  induction d with
  | nil => simp [dictSet, dictLookup, pyEq]
  | cons p rest ih =>
    by_cases h : pyEq p.1 (.str a) = true
    · obtain ⟨k, v⟩ := p
      simp only at h
      rw [(pyEq_str_iff _ _).mp h]
      simp [dictSet, dictLookup, pyEq]
    · obtain ⟨k, v⟩ := p
      simp only at h
      simp [dictSet, h, dictLookup, ih]

theorem dictLookup_dictSet_str_ne (d : List (PyVal × PyVal)) (a b : String)
    (x : PyVal) (hab : a ≠ b) :
    dictLookup (dictSet d (.str a) x) (.str b) = dictLookup d (.str b) := by
  induction d with
  | nil => simp [dictSet, dictLookup, pyEq, hab]
  | cons p rest ih =>
    obtain ⟨k, v⟩ := p
    by_cases h : pyEq k (.str a) = true
    · rw [(pyEq_str_iff _ _).mp h]
      simp [dictSet, dictLookup, pyEq, hab]
    · simp [dictSet, h, dictLookup, ih]

theorem getItem_pySetD_str_self (d : List (PyVal × PyVal)) (a : String)
    (x : PyVal) :
    getItem (pySetD (.dict d) (.str a) x) (.str a) = .ok x := by
  simp [pySetD, getItem, dictLookup_dictSet_str_self]

theorem getItem_pySetD_str_ne (d : List (PyVal × PyVal)) (a b : String)
    (x : PyVal) (hab : a ≠ b) :
    getItem (pySetD (.dict d) (.str a) x) (.str b) =
      getItem (.dict d) (.str b) := by
  simp [pySetD, getItem, dictLookup_dictSet_str_ne _ _ _ _ hab]

theorem setItem_dict (d : List (PyVal × PyVal)) (k x : PyVal) :
    setItem (.dict d) k x = .ok (pySetD (.dict d) k x) := rfl

theorem bind_eq_ok {ε α β : Type} {x : Except ε α} {f : α → Except ε β}
    {b : β} : (x >>= f) = .ok b ↔ ∃ a, x = .ok a ∧ f a = .ok b := by
  cases x <;> simp [Bind.bind, Except.bind]

theorem except_pure {ε α : Type} (a : α) :
    (pure a : Except ε α) = Except.ok a := rfl

/-- The nested fill keeps the state a dict. -/
theorem fillNestedLoop_dict (l : List (PyVal × PyVal)) :
    ∀ (du : List (PyVal × PyVal)) (key w : PyVal),
      fillNestedLoop (.dict du) key l = .ok w → ∃ dw, w = .dict dw := by
  induction l with
  | nil =>
    intro du key w hw
    simp only [fillNestedLoop] at hw
    exact ⟨du, by injection hw with h; rw [← h]⟩
  | cons q rest ih =>
    intro du key w hw
    obtain ⟨nk, nd⟩ := q
    simp only [fillNestedLoop] at hw
    rw [bind_eq_ok] at hw
    obtain ⟨v, hv, hw⟩ := hw
    rw [bind_eq_ok] at hw
    obtain ⟨b, hb, hw⟩ := hw
    by_cases hbt : b = true
    · subst hbt
      simp only [if_pos rfl] at hw
      exact ih du key w hw
    · simp only [Bool.not_eq_true] at hbt
      subst hbt
      simp only [Bool.false_eq_true, if_false] at hw
      rw [bind_eq_ok] at hw
      obtain ⟨v', hv', hw⟩ := hw
      rw [setItem_dict, except_bind_ok] at hw
      exact ih _ key w hw

/-- The top-level fill keeps the state a dict. -/
theorem fillTopLoop_dict (items : List (PyVal × PyVal)) :
    ∀ (du : List (PyVal × PyVal)) (w : PyVal),
      fillTopLoop (.dict du) items = .ok w → ∃ dw, w = .dict dw := by
  induction items with
  | nil =>
    intro du w hw
    simp only [fillTopLoop] at hw
    exact ⟨du, by injection hw with h; rw [← h]⟩
  | cons p rest ih =>
    intro du w hw
    obtain ⟨key, dv⟩ := p
    simp only [fillTopLoop] at hw
    rw [bind_eq_ok] at hw
    obtain ⟨b, hb, hw⟩ := hw
    by_cases hbt : b = true
    · subst hbt
      simp only [Bool.not_true, Bool.false_eq_true, if_false] at hw
      cases dv with
      | dict nds =>
        rw [bind_eq_ok] at hw
        obtain ⟨mid, hmid, hw⟩ := hw
        obtain ⟨d', rfl⟩ := fillNestedLoop_dict nds du key mid hmid
        exact ih d' w hw
      | none => rw [pure_bind] at hw; exact ih du w hw
      | bool bb => rw [pure_bind] at hw; exact ih du w hw
      | int n => rw [pure_bind] at hw; exact ih du w hw
      | str s => rw [pure_bind] at hw; exact ih du w hw
      | list xs => rw [pure_bind] at hw; exact ih du w hw
    · simp only [Bool.not_eq_true] at hbt
      subst hbt
      simp only [Bool.not_false, if_true] at hw
      rw [setItem_dict, except_bind_ok] at hw
      exact ih _ w hw

/-- `normalize_state` always returns a dict. -/
theorem normalize_state_isDict (s st : PyVal)
    (h : normalize_state s = .ok st) : ∃ d, st = .dict d := by
  cases s with
  | dict d0 =>
    simp only [normalize_state] at h
    rw [bind_eq_ok] at h
    obtain ⟨mid, hmid, h⟩ := h
    obtain ⟨dm, rfl⟩ := fillTopLoop_dict baseItems d0 mid hmid
    cases hct : pyDictGet (PyVal.dict dm) (.str "current_test") with
    | dict entries =>
      rw [hct] at h
      simp only [rebuildField] at h
      rw [setItem_dict] at h
      exact ⟨_, by injection h with h'; rw [← h']; rfl⟩
    | none =>
      rw [hct] at h
      exact ⟨dm, by injection h with h'; rw [← h']⟩
    | bool b =>
      rw [hct] at h
      exact ⟨dm, by injection h with h'; rw [← h']⟩
    | int n =>
      rw [hct] at h
      exact ⟨dm, by injection h with h'; rw [← h']⟩
    | str s =>
      rw [hct] at h
      exact ⟨dm, by injection h with h'; rw [← h']⟩
    | list xs =>
      rw [hct] at h
      exact ⟨dm, by injection h with h'; rw [← h']⟩
  | none =>
    exact ⟨baseItems, by injection h with h'; rw [← h']; rfl⟩
  | bool b =>
    exact ⟨baseItems, by injection h with h'; rw [← h']; rfl⟩
  | int n =>
    exact ⟨baseItems, by injection h with h'; rw [← h']; rfl⟩
  | str s' =>
    exact ⟨baseItems, by injection h with h'; rw [← h']; rfl⟩
  | list xs =>
    exact ⟨baseItems, by injection h with h'; rw [← h']; rfl⟩

/-- When the input is non-blank, is not a progress command, and the active
problem-solver continuation gate does not fire, `process_user_message`
falls through to classification dispatch on the normalized state. -/
theorem process_reaches_dispatch (env : Env) (access_token user_text : String)
    (state stN ps active : PyVal)
    (hN : normalize_state state = .ok stN)
    (hu : user_text ≠ "")
    (hr : pyStrip user_text ≠ "")
    (hpc : (_parse_progress_command (pyStrip user_text)).1 = false)
    (hps : getItem stN (.str "problem_solver") = .ok ps)
    (ha : getItem ps (.str "active") = .ok active)
    (hgate : (pyTruthy active &&
        (yes_words.contains (pyLower (pyStrip user_text)) ||
         no_words.contains (pyLower (pyStrip user_text)))) = false) :
    process_user_message env access_token user_text state =
      dispatch env access_token (pyStrip user_text) stN := by
  unfold process_user_message
  rw [hN, except_bind_ok]
  rw [if_neg hu]
  simp only [hpc, Bool.false_eq_true, if_false]
  rw [hps, except_bind_ok, ha, except_bind_ok]
  simp only [hgate, Bool.false_eq_true, if_false]
  rw [if_neg hr]

/-- With an active solver and an exact affirmative/negative match, the
continuation gate fires: the raw (stripped) input is forwarded to the
problem-solver continuation, whose sub-state replaces `problem_solver`. -/
theorem process_solver_consumes (env : Env) (access_token user_text : String)
    (state stN ps active : PyVal) (dN : List (PyVal × PyVal))
    (hN : normalize_state state = .ok stN)
    (hdN : stN = .dict dN)
    (hu : user_text ≠ "")
    (hpc : (_parse_progress_command (pyStrip user_text)).1 = false)
    (hps : getItem stN (.str "problem_solver") = .ok ps)
    (ha : getItem ps (.str "active") = .ok active)
    (hact : pyTruthy active = true)
    (hgate : (yes_words.contains (pyLower (pyStrip user_text)) ||
        no_words.contains (pyLower (pyStrip user_text))) = true) :
    process_user_message env access_token user_text state =
      .ok ((env.continue_problem_solver access_token ps
              (pyStrip user_text)).1,
           pySetD stN (.str "problem_solver")
             (env.continue_problem_solver access_token ps
               (pyStrip user_text)).2,
           []) := by
  unfold process_user_message
  rw [hN, except_bind_ok]
  rw [if_neg hu]
  simp only [hpc, Bool.false_eq_true, if_false]
  rw [hps, except_bind_ok, ha, except_bind_ok]
  simp only [hact, hgate, Bool.and_self, if_true]
  rw [hdN, setItem_dict, except_bind_ok]
  rfl

/-- In `dispatch`, an agent selector outside the closed set 1–5 yields the
fixed unrecognized-mode reply with no database write; the state is the
input state except that `last_topic` has already been overwritten when the
topic-change signal fired. -/
theorem dispatch_unknown (env : Env) (access_token request_text : String)
    (st : PyVal) (dN : List (PyVal × PyVal)) (aid ct : Int)
    (hdN : st = .dict dN)
    (hm : env.run_moderator access_token request_text = (aid, ct))
    (h1 : aid ≠ 1) (h2 : aid ≠ 2) (h3 : aid ≠ 3) (h4 : aid ≠ 4)
    (h5 : aid ≠ 5) :
    dispatch env access_token request_text st =
      .ok (unknownModeReply,
           (if ct = 1
            then pySetD st (.str "last_topic") (.str request_text)
            else st),
           []) := by
  unfold dispatch
  rw [hm]
  by_cases hct : ct = 1
  · subst hct
    simp [hdN, setItem_dict, except_pure, except_bind_ok, h1, h2, h3, h4, h5]
  · simp [hct, except_pure, except_bind_ok, h1, h2, h3, h4, h5]

/-- In `dispatch`, the analyser branch with no outstanding test yields the
fixed nothing-to-grade reply and writes no row; apart from the
already-applied `last_topic` overwrite, the state is returned untouched. -/
theorem dispatch_analyser_no_test (env : Env)
    (access_token request_text : String)
    (st : PyVal) (dN : List (PyVal × PyVal)) (ct : Int)
    (hdN : st = .dict dN)
    (hm : env.run_moderator access_token request_text = (3, ct))
    (hct : getItem (if ct = 1
        then pySetD st (.str "last_topic") (.str request_text)
        else st) (.str "current_test") = .ok PyVal.none) :
    dispatch env access_token request_text st =
      .ok (noTestReply,
           (if ct = 1
            then pySetD st (.str "last_topic") (.str request_text)
            else st),
           []) := by
  unfold dispatch
  rw [hm]
  by_cases hc : ct = 1
  · subst hc
    rw [if_pos rfl] at hct
    rw [hdN] at hct ⊢
    simp [setItem_dict, except_pure, except_bind_ok, hct]
  · rw [if_neg hc] at hct
    simp [hc, except_pure, except_bind_ok, hct]

/-- In `dispatch`, the analyser branch with an outstanding test scores the
submission, writes exactly one `TestRow` whose `percent` is the truncated
binary64 ratio, clears `current_test` and replies with the report text. -/
theorem dispatch_analyser_success (env : Env)
    (access_token request_text : String)
    (st st2 : PyVal) (dN : List (PyVal × PyVal)) (ct : Int) (ctv lt : PyVal)
    (hdN : st = .dict dN)
    (hm : env.run_moderator access_token request_text = (3, ct))
    (hst2 : (if ct = 1
        then pySetD st (.str "last_topic") (.str request_text)
        else st) = st2)
    (hctv : getItem st2 (.str "current_test") = .ok ctv)
    (hne : ctv ≠ PyVal.none)
    (hlt : getItem st2 (.str "last_topic") = .ok lt) :
    dispatch env access_token request_text st =
      .ok ((env.run_analyser ctv request_text).1,
           pySetD st2 (.str "current_test") PyVal.none,
           [⟨lt, (env.run_analyser ctv request_text).2.1,
             (env.run_analyser ctv request_text).2.2,
             (if 0 < (env.run_analyser ctv request_text).2.2
              then pyPercent (env.run_analyser ctv request_text).2.1
                (env.run_analyser ctv request_text).2.2
              else 0),
             request_text⟩]) := by
  have hst2d : ∃ d2, st2 = .dict d2 := by
    rw [← hst2, hdN]
    by_cases hc : ct = 1
    · exact ⟨_, by rw [if_pos hc]; rfl⟩
    · exact ⟨dN, by rw [if_neg hc]⟩
  obtain ⟨d2, hd2⟩ := hst2d
  rcases hA : env.run_analyser ctv request_text with ⟨rep, sc, tot⟩
  unfold dispatch
  rw [hm]
  by_cases hc : ct = 1
  · subst hc
    rw [if_pos rfl] at hst2
    rw [hdN] at hst2 ⊢
    rw [hd2] at hctv hlt hst2
    simp [setItem_dict, except_pure, except_bind_ok, hst2, hctv, hne, hA, hlt]
    rw [hd2]
  · rw [if_neg hc] at hst2
    rw [hd2] at hctv hlt
    rw [hst2.trans hd2]
    simp [hc, except_pure, except_bind_ok, hctv, hne, hA, hlt, setItem_dict]
    rw [hd2]

/-! ## Concrete instances used by counterexamples and witnesses -/

/-- A concrete collaborator environment, with the classifier chosen per
scenario; the other agents are inert stubs (their behaviour is irrelevant
to the scenarios that use this). -/
def stubAgents (m : String → String → Int × Int) : Env where
  run_moderator := m
  run_tutor := fun _ _ h => ("tutor", h)
  run_examiner := fun _ _ => "raw"
  format_exam := fun _ => ("q", .dict [(.int 1, .str "A")], "theme")
  run_analyser := fun _ _ => ("report", 2, 3)
  start_problem_solver := fun _ _ => ("start", .dict [])
  continue_problem_solver := fun _ ps _ => ("continue", ps)
  run_summarizer := fun _ _ => "sum"
  show_progress := fun _ => "progress"

/-- An already-normalized state with an outstanding one-question test. -/
def stWithTest : PyVal :=
  pySetD create_initial_state (.str "current_test")
    (.dict [(.int 1, .str "A")])

/-- An already-normalized state with an active problem-solver session. -/
def stActive : PyVal :=
  pySetD create_initial_state (.str "problem_solver")
    (.dict [ (.str "active", .bool true), (.str "topic", .none),
             (.str "steps", .list []), (.str "current_step", .int 0) ])

/-! ## Claim theorems -/

/-- Claim C7, counterexample: the progress parser returns a `null` filter on
`"progressive"` — there is no whitespace to split at, so the claimed
filter `"ive"` is wrong. -/
theorem progress_progressive_counterexample :
    _parse_progress_command "progressive" ≠ (true, some "ive") := by decide

/-- Claim C7 (corrected): `"progress"` parses as a progress command with no
filter and `"Progress planets"` with filter `"planets"`; `"progressive"`
also matches — the check is a literal `startswith` — but its filter is
`null`, since the filter is the text after the first whitespace split and
`"progressive"` is a single token. -/
theorem progress_parsing :
    _parse_progress_command "progress" = (true, Option.none) ∧
    _parse_progress_command "Progress planets" = (true, some "planets") ∧
    _parse_progress_command "progressive" = (true, Option.none) := by decide

/-- Claim C3, counterexample: with the classifier returning the out-of-set
selector 0 together with a topic-change signal, the unrecognized-mode
reply is produced but the returned state is *not* the normalized input
state: `last_topic` has been overwritten with the input. -/
theorem unknown_selector_state_counterexample :
    process_user_message (stubAgents fun _ _ => (0, 1)) "t" "hello"
        create_initial_state =
      .ok (unknownModeReply,
           pySetD create_initial_state (.str "last_topic") (.str "hello"),
           []) ∧
    normalize_state create_initial_state = .ok create_initial_state ∧
    pySetD create_initial_state (.str "last_topic") (.str "hello") ≠
      create_initial_state := by decide

/-- Claim C3 (corrected): on an out-of-set selector the router replies with
the fixed unrecognized-mode message and writes nothing, and the state is
the normalized input state *except* that `last_topic` is overwritten with
the input when the classifier also signalled a topic change — the
overwrite happens before the selector is inspected. -/
theorem unknown_selector_reply_and_frame (env : Env)
    (access_token user_text : String) (state stN ps active : PyVal)
    (aid ct : Int)
    (hN : normalize_state state = .ok stN)
    (hu : user_text ≠ "")
    (hr : pyStrip user_text ≠ "")
    (hpc : (_parse_progress_command (pyStrip user_text)).1 = false)
    (hps : getItem stN (.str "problem_solver") = .ok ps)
    (ha : getItem ps (.str "active") = .ok active)
    (hgate : (pyTruthy active &&
        (yes_words.contains (pyLower (pyStrip user_text)) ||
         no_words.contains (pyLower (pyStrip user_text)))) = false)
    (hm : env.run_moderator access_token (pyStrip user_text) = (aid, ct))
    (h1 : aid ≠ 1) (h2 : aid ≠ 2) (h3 : aid ≠ 3) (h4 : aid ≠ 4)
    (h5 : aid ≠ 5) :
    process_user_message env access_token user_text state =
      .ok (unknownModeReply,
           (if ct = 1
            then pySetD stN (.str "last_topic") (.str (pyStrip user_text))
            else stN),
           []) := by
  obtain ⟨dN, hdN⟩ := normalize_state_isDict state stN hN
  rw [process_reaches_dispatch env access_token user_text state stN ps active
    hN hu hr hpc hps ha hgate]
  exact dispatch_unknown env access_token (pyStrip user_text) stN dN aid ct
    hdN hm h1 h2 h3 h4 h5

/-- Claim C3 witness. -/
theorem unknown_selector_reply_and_frame_witness :
    process_user_message (stubAgents fun _ _ => (7, 0)) "t" "hello"
        create_initial_state =
      .ok (unknownModeReply,
           (if (0 : Int) = 1
            then pySetD create_initial_state (.str "last_topic")
              (.str (pyStrip "hello"))
            else create_initial_state),
           []) :=
  unknown_selector_reply_and_frame (stubAgents fun _ _ => (7, 0)) "t"
    "hello" create_initial_state create_initial_state
    (.dict [ (.str "active", .bool false), (.str "topic", .none),
             (.str "steps", .list []), (.str "current_step", .int 0) ])
    (.bool false) 7 0 (by decide) (by decide) (by decide) (by decide)
    (by decide) (by decide) (by decide) (by decide) (by decide) (by decide)
    (by decide) (by decide) (by decide)

/-- Claim C4, counterexample: an input routed to the analyser with no
outstanding test and a topic-change signal gets the fixed nothing-to-grade
reply and no `TestResult` write, but the returned state differs from the
normalized input state: `last_topic` was overwritten. -/
theorem analyser_no_test_state_counterexample :
    process_user_message (stubAgents fun _ _ => (3, 1)) "t" "hello"
        create_initial_state =
      .ok (noTestReply,
           pySetD create_initial_state (.str "last_topic") (.str "hello"),
           []) ∧
    normalize_state create_initial_state = .ok create_initial_state ∧
    pySetD create_initial_state (.str "last_topic") (.str "hello") ≠
      create_initial_state := by decide

/-- Claim C4 (corrected): when the classifier routes to the analyser and
the normalized `current_test` is null, the router replies with the fixed
nothing-to-grade message and writes no `TestResult` row; the state is
returned untouched *except* that `last_topic` is overwritten with the
input when the topic-change signal fired before dispatch. -/
theorem analyser_no_test_frame (env : Env)
    (access_token user_text : String) (state stN ps active : PyVal)
    (ct : Int)
    (hN : normalize_state state = .ok stN)
    (hu : user_text ≠ "")
    (hr : pyStrip user_text ≠ "")
    (hpc : (_parse_progress_command (pyStrip user_text)).1 = false)
    (hps : getItem stN (.str "problem_solver") = .ok ps)
    (ha : getItem ps (.str "active") = .ok active)
    (hgate : (pyTruthy active &&
        (yes_words.contains (pyLower (pyStrip user_text)) ||
         no_words.contains (pyLower (pyStrip user_text)))) = false)
    (hm : env.run_moderator access_token (pyStrip user_text) = (3, ct))
    (hct : getItem stN (.str "current_test") = .ok PyVal.none) :
    process_user_message env access_token user_text state =
      .ok (noTestReply,
           (if ct = 1
            then pySetD stN (.str "last_topic") (.str (pyStrip user_text))
            else stN),
           []) := by
  obtain ⟨dN, hdN⟩ := normalize_state_isDict state stN hN
  rw [process_reaches_dispatch env access_token user_text state stN ps active
    hN hu hr hpc hps ha hgate]
  refine dispatch_analyser_no_test env access_token (pyStrip user_text) stN
    dN ct hdN hm ?_
  by_cases hc : ct = 1
  · rw [if_pos hc, hdN,
      getItem_pySetD_str_ne dN "last_topic" "current_test" _ (by decide),
      ← hdN]
    exact hct
  · rw [if_neg hc]
    exact hct

/-- Claim C4 witness. -/
theorem analyser_no_test_frame_witness :
    process_user_message (stubAgents fun _ _ => (3, 0)) "t" "hello"
        create_initial_state =
      .ok (noTestReply,
           (if (0 : Int) = 1
            then pySetD create_initial_state (.str "last_topic")
              (.str (pyStrip "hello"))
            else create_initial_state),
           []) :=
  analyser_no_test_frame (stubAgents fun _ _ => (3, 0)) "t" "hello"
    create_initial_state create_initial_state
    (.dict [ (.str "active", .bool false), (.str "topic", .none),
             (.str "steps", .list []), (.str "current_step", .int 0) ])
    (.bool false) 0 (by decide) (by decide) (by decide) (by decide)
    (by decide) (by decide) (by decide) (by decide) (by decide)

/-- Claim C2, counterexample: the analyser path persists
`int(score / total * 100)`, which truncates the binary64 value; for score
2 of total 3 the stored percent is 66, while the claimed
`round(score/total*100)` is 67.  (It is not the exact rational floor
either: for 29 of 50 the float evaluation stores 57 where
`⌊29·100/50⌋ = 58`.) -/
theorem percent_not_round_counterexample :
    process_user_message (stubAgents fun _ _ => (3, 0)) "t" "1a 2b"
        stWithTest =
      .ok ("report",
           pySetD stWithTest (.str "current_test") PyVal.none,
           [⟨PyVal.none, 2, 3, 66, "1a 2b"⟩]) ∧
    (66 : ℤ) ≠ round ((2 : ℚ) / 3 * 100) ∧
    pyPercent 29 50 = 57 ∧ (29 * 100 / 50 : ℕ) = 58 := by
  refine ⟨by decide, by norm_num [round_eq], by decide, by decide⟩

/-- Claim C2 (corrected): for every turn on which the answer-analyser
scores a submission with score ≤ total, exactly one `TestResult` row is
persisted, and its percent equals the truncation toward zero of the
binary64 evaluation of `score / total * 100` (round-to-nearest-even at
the division and at the multiplication) when `total > 0`, and `0` when
`total = 0` — float truncation, neither `round(...)` nor the exact
rational floor. -/
theorem analyser_percent_trunc (env : Env)
    (access_token user_text : String) (state stN ps active ctv lt : PyVal)
    (ct : Int)
    (hN : normalize_state state = .ok stN)
    (hu : user_text ≠ "")
    (hr : pyStrip user_text ≠ "")
    (hpc : (_parse_progress_command (pyStrip user_text)).1 = false)
    (hps : getItem stN (.str "problem_solver") = .ok ps)
    (ha : getItem ps (.str "active") = .ok active)
    (hgate : (pyTruthy active &&
        (yes_words.contains (pyLower (pyStrip user_text)) ||
         no_words.contains (pyLower (pyStrip user_text)))) = false)
    (hm : env.run_moderator access_token (pyStrip user_text) = (3, ct))
    (hctv : getItem stN (.str "current_test") = .ok ctv)
    (hne : ctv ≠ PyVal.none)
    (hbound : (env.run_analyser ctv (pyStrip user_text)).2.1 ≤
      (env.run_analyser ctv (pyStrip user_text)).2.2)
    (hlt : getItem stN (.str "last_topic") = .ok lt) :
    process_user_message env access_token user_text state =
      .ok ((env.run_analyser ctv (pyStrip user_text)).1,
           pySetD (if ct = 1
               then pySetD stN (.str "last_topic")
                 (.str (pyStrip user_text))
               else stN)
             (.str "current_test") PyVal.none,
           [⟨(if ct = 1 then PyVal.str (pyStrip user_text) else lt),
             (env.run_analyser ctv (pyStrip user_text)).2.1,
             (env.run_analyser ctv (pyStrip user_text)).2.2,
             (if 0 < (env.run_analyser ctv (pyStrip user_text)).2.2
              then pyPercent (env.run_analyser ctv (pyStrip user_text)).2.1
                (env.run_analyser ctv (pyStrip user_text)).2.2
              else 0),
             pyStrip user_text⟩]) := by
  obtain ⟨dN, hdN⟩ := normalize_state_isDict state stN hN
  rw [process_reaches_dispatch env access_token user_text state stN ps active
    hN hu hr hpc hps ha hgate]
  refine dispatch_analyser_success env access_token (pyStrip user_text) stN
    (if ct = 1
     then pySetD stN (.str "last_topic") (.str (pyStrip user_text))
     else stN)
    dN ct ctv
    (if ct = 1 then PyVal.str (pyStrip user_text) else lt)
    hdN hm rfl ?_ hne ?_
  · by_cases hc : ct = 1
    · rw [if_pos hc, hdN,
        getItem_pySetD_str_ne dN "last_topic" "current_test" _ (by decide),
        ← hdN]
      exact hctv
    · rw [if_neg hc]
      exact hctv
  · by_cases hc : ct = 1
    · rw [if_pos hc, if_pos hc, hdN, getItem_pySetD_str_self]
    · rw [if_neg hc, if_neg hc]
      exact hlt

/-- Claim C2 witness. -/
theorem analyser_percent_trunc_witness :
    process_user_message (stubAgents fun _ _ => (3, 0)) "t" "1a 2b"
        stWithTest =
      .ok (((stubAgents fun _ _ => (3, 0)).run_analyser
              (.dict [(.int 1, .str "A")]) (pyStrip "1a 2b")).1,
           pySetD (if (0 : Int) = 1
               then pySetD stWithTest (.str "last_topic")
                 (.str (pyStrip "1a 2b"))
               else stWithTest)
             (.str "current_test") PyVal.none,
           [⟨(if (0 : Int) = 1 then PyVal.str (pyStrip "1a 2b")
              else PyVal.none),
             ((stubAgents fun _ _ => (3, 0)).run_analyser
               (.dict [(.int 1, .str "A")]) (pyStrip "1a 2b")).2.1,
             ((stubAgents fun _ _ => (3, 0)).run_analyser
               (.dict [(.int 1, .str "A")]) (pyStrip "1a 2b")).2.2,
             (if 0 < ((stubAgents fun _ _ => (3, 0)).run_analyser
                 (.dict [(.int 1, .str "A")]) (pyStrip "1a 2b")).2.2
              then pyPercent ((stubAgents fun _ _ => (3, 0)).run_analyser
                  (.dict [(.int 1, .str "A")]) (pyStrip "1a 2b")).2.1
                ((stubAgents fun _ _ => (3, 0)).run_analyser
                  (.dict [(.int 1, .str "A")]) (pyStrip "1a 2b")).2.2
              else 0),
             pyStrip "1a 2b"⟩]) :=
  analyser_percent_trunc (stubAgents fun _ _ => (3, 0)) "t" "1a 2b"
    stWithTest stWithTest
    (.dict [ (.str "active", .bool false), (.str "topic", .none),
             (.str "steps", .list []), (.str "current_step", .int 0) ])
    (.bool false) (.dict [(.int 1, .str "A")]) PyVal.none 0
    (by decide) (by decide) (by decide) (by decide) (by decide) (by decide)
    (by decide) (by decide) (by decide) (by decide) (by decide) (by decide)

/-- Every affirmative/negative gate word is nonempty and, stripped, does not
start with `progress` — checked by evaluation over the two fixed lists. -/
theorem gate_words_facts (w : String)
    (hm : (yes_words.contains w || no_words.contains w) = true) :
    w ≠ "" ∧
    ("progress".data.isPrefixOf (pyStrip w).data) = false := by
  have hmem : w ∈ yes_words ++ no_words := by
    rw [Bool.or_eq_true] at hm
    rcases hm with h | h
    · exact List.mem_append_left _ (by simpa using h)
    · exact List.mem_append_right _ (by simpa using h)
  have hall : (yes_words ++ no_words).all
      (fun w => decide (w ≠ "") &&
        !("progress".data.isPrefixOf (pyStrip w).data)) = true := by decide
  have := List.all_eq_true.mp hall w hmem
  simp only [Bool.and_eq_true, decide_eq_true_eq, Bool.not_eq_true'] at this
  exact ⟨this.1, this.2⟩

/-- The progress parser rejects an input whose lower-casing is a gate
word. -/
theorem progress_false_of_gate_word (u : String)
    (hm : (yes_words.contains (pyLower u) ||
           no_words.contains (pyLower u)) = true) :
    (_parse_progress_command u).1 = false := by
  obtain ⟨-, hnp⟩ := gate_words_facts (pyLower u) hm
  simp only [_parse_progress_command, hnp]
  simp

/-- Claim C8 (confirmed): with `problem_solver.active = true`, an input
whose trimmed lower-casing is exactly one of the fixed affirmative or
negative words is consumed by the continuation path — the sub-state is
replaced by the continuation's result, and the classifier is never
consulted (the turn's outcome is invariant under replacing it); any other
non-blank, non-progress input falls through to classification dispatch. -/
theorem solver_gate_routing (env : Env)
    (m2 : String → String → Int × Int)
    (access_token user_text : String) (state stN ps : PyVal)
    (hN : normalize_state state = .ok stN)
    (hps : getItem stN (.str "problem_solver") = .ok ps)
    (ha : getItem ps (.str "active") = .ok (.bool true)) :
    ((yes_words.contains (pyLower (pyStrip user_text)) ||
      no_words.contains (pyLower (pyStrip user_text))) = true →
      process_user_message env access_token user_text state =
        .ok ((env.continue_problem_solver access_token ps
                (pyStrip user_text)).1,
             pySetD stN (.str "problem_solver")
               (env.continue_problem_solver access_token ps
                 (pyStrip user_text)).2,
             []) ∧
      process_user_message { env with run_moderator := m2 } access_token
          user_text state =
        process_user_message env access_token user_text state) ∧
    (user_text ≠ "" → pyStrip user_text ≠ "" →
     (_parse_progress_command (pyStrip user_text)).1 = false →
     (yes_words.contains (pyLower (pyStrip user_text)) ||
      no_words.contains (pyLower (pyStrip user_text))) = false →
      process_user_message env access_token user_text state =
        dispatch env access_token (pyStrip user_text) stN) := by
  obtain ⟨dN, hdN⟩ := normalize_state_isDict state stN hN
  constructor
  · intro hmem
    have hu : user_text ≠ "" := by
      intro h
      rw [h] at hmem
      revert hmem
      decide
    have hpc := progress_false_of_gate_word (pyStrip user_text) hmem
    have hA := process_solver_consumes env access_token user_text state stN
      ps (.bool true) dN hN hdN hu hpc hps ha rfl hmem
    have hA2 := process_solver_consumes { env with run_moderator := m2 }
      access_token user_text state stN ps (.bool true) dN hN hdN hu hpc hps
      ha rfl hmem
    exact ⟨hA, by rw [hA2, hA]⟩
  · intro hu hr hpc hmem
    exact process_reaches_dispatch env access_token user_text state stN ps
      (.bool true) hN hu hr hpc hps ha
      (by rw [hmem]; simp [pyTruthy])

/-- Claim C8 witness. -/
theorem solver_gate_routing_witness :
    (process_user_message (stubAgents fun _ _ => (0, 1)) "t" "да" stActive =
      .ok (((stubAgents fun _ _ => (0, 1)).continue_problem_solver "t"
              (.dict [ (.str "active", .bool true), (.str "topic", .none),
                       (.str "steps", .list []),
                       (.str "current_step", .int 0) ])
              (pyStrip "да")).1,
           pySetD stActive (.str "problem_solver")
             ((stubAgents fun _ _ => (0, 1)).continue_problem_solver "t"
               (.dict [ (.str "active", .bool true), (.str "topic", .none),
                        (.str "steps", .list []),
                        (.str "current_step", .int 0) ])
               (pyStrip "да")).2,
           []) ∧
     process_user_message
         { stubAgents fun _ _ => (0, 1) with
             run_moderator := fun _ _ => (5, 0) } "t" "да" stActive =
       process_user_message (stubAgents fun _ _ => (0, 1)) "t" "да"
         stActive) ∧
    process_user_message (stubAgents fun _ _ => (0, 1)) "t" "да, а ещё..."
        stActive =
      dispatch (stubAgents fun _ _ => (0, 1)) "t"
        (pyStrip "да, а ещё...") stActive :=
  ⟨(solver_gate_routing (stubAgents fun _ _ => (0, 1))
      (fun _ _ => (5, 0)) "t" "да" stActive stActive
      (.dict [ (.str "active", .bool true), (.str "topic", .none),
               (.str "steps", .list []), (.str "current_step", .int 0) ])
      (by decide) (by decide) (by decide)).1 (by decide),
   (solver_gate_routing (stubAgents fun _ _ => (0, 1))
      (fun _ _ => (5, 0)) "t" "да, а ещё..." stActive stActive
      (.dict [ (.str "active", .bool true), (.str "topic", .none),
               (.str "steps", .list []), (.str "current_step", .int 0) ])
      (by decide) (by decide) (by decide)).2 (by decide) (by decide)
     (by decide) (by decide)⟩

/-! ## Dict algebra for the normalize proofs -/

theorem pyEq_str_left_iff (s : String) (k : PyVal) :
    pyEq (.str s) k = true ↔ k = .str s := by
  cases k <;> simp [pyEq]
  exact eq_comm

/-- Overwriting under a key not equal to `.str a` (no other value is
Python-equal to a string) leaves the lookup at `.str a` unchanged. -/
theorem dictLookup_dictSet_ne_str' (d : List (PyVal × PyVal)) (k : PyVal)
    (a : String) (x : PyVal) (hk : k ≠ .str a) :
    dictLookup (dictSet d k x) (.str a) = dictLookup d (.str a) := by
  induction d with
  | nil =>
    simp only [dictSet, dictLookup]
    rw [if_neg]
    intro hke
    exact hk ((pyEq_str_iff _ _).mp hke)
  | cons p rest ih =>
    obtain ⟨k', v'⟩ := p
    by_cases h : pyEq k' k = true
    · simp only [dictSet, h, if_true, dictLookup]
      by_cases h2 : pyEq k' (.str a) = true
      · exact absurd ((pyEq_str_iff _ _).mp h2 ▸ (pyEq_str_left_iff _ _).mp
          (by rw [← (pyEq_str_iff _ _).mp h2]; exact h)) hk
      · simp [h2]
    · simp only [dictSet, h, Bool.false_eq_true, if_false, dictLookup]
      by_cases h2 : pyEq k' (.str a) = true
      · simp [h2]
      · simp [h2, ih]

theorem dictContains_dictSet_mono (d : List (PyVal × PyVal))
    (k k' x : PyVal) (h : dictContains d k = true) :
    dictContains (dictSet d k' x) k = true := by
  induction d with
  | nil => simp [dictContains, dictLookup] at h
  | cons p rest ih =>
    obtain ⟨a, v⟩ := p
    by_cases hak : pyEq a k' = true
    · simp only [dictSet, hak, if_true]
      simp only [dictContains, dictLookup] at h ⊢
      by_cases h2 : pyEq a k = true
      · simp [h2]
      · simp only [h2, Bool.false_eq_true, if_false] at h ⊢
        exact h
    · simp only [dictSet, hak, Bool.false_eq_true, if_false]
      simp only [dictContains, dictLookup] at h ⊢
      by_cases h2 : pyEq a k = true
      · simp [h2]
      · simp only [h2, Bool.false_eq_true, if_false] at h ⊢
        exact ih h

theorem dictContains_dictSet_self (d : List (PyVal × PyVal))
    (a : String) (x : PyVal) :
    dictContains (dictSet d (.str a) x) (.str a) = true := by
  simp [dictContains, dictLookup_dictSet_str_self]

/-- Rewriting a key with the value it already holds leaves a dict
unchanged. -/
theorem dictSet_self (d : List (PyVal × PyVal)) (k v : PyVal)
    (h : dictLookup d k = some v) : dictSet d k v = d := by
  induction d with
  | nil => simp [dictLookup] at h
  | cons p rest ih =>
    obtain ⟨a, w⟩ := p
    by_cases h2 : pyEq a k = true
    · simp only [dictLookup, h2, if_true, Option.some_inj] at h
      simp [dictSet, h2, h]
    · simp only [dictLookup, h2, Bool.false_eq_true, if_false] at h
      simp [dictSet, h2, ih h]

theorem dictSet_dictSet_self (d : List (PyVal × PyVal)) (a : String)
    (x y : PyVal) :
    dictSet (dictSet d (.str a) x) (.str a) y = dictSet d (.str a) y := by
  induction d with
  | nil => simp [dictSet, pyEq]
  | cons p rest ih =>
    obtain ⟨k', v'⟩ := p
    by_cases h : pyEq k' (.str a) = true
    · simp [dictSet, h]
    · simp [dictSet, h, ih]

/-! ## Characterizing the fill loops -/

/-- The pure effect of the nested fill on the `problem_solver` dict. -/
def fillNestedPure (p : List (PyVal × PyVal)) :
    List (PyVal × PyVal) → List (PyVal × PyVal)
  | [] => p
  | (nk, nd) :: rest =>
    if dictContains p nk then fillNestedPure p rest
    else fillNestedPure (dictSet p nk nd) rest

/-- When the value under `key` is a dict, the nested fill succeeds and
rewrites exactly that value by `fillNestedPure`. -/
theorem fillNestedLoop_dict_value (items : List (PyVal × PyVal)) :
    ∀ (du p : List (PyVal × PyVal)) (a : String),
      dictLookup du (.str a) = some (.dict p) →
      fillNestedLoop (.dict du) (.str a) items =
        .ok (.dict (dictSet du (.str a) (.dict (fillNestedPure p items)))) := by
  induction items with
  | nil =>
    intro du p a h
    simp only [fillNestedLoop, fillNestedPure]
    rw [dictSet_self du _ _ h]
  | cons q rest ih =>
    intro du p a h
    obtain ⟨nk, nd⟩ := q
    simp only [fillNestedLoop, getItem, h, except_bind_ok, pyContains,
      fillNestedPure]
    by_cases hc : dictContains p nk = true
    · simp only [hc, if_true, except_bind_ok]
      exact ih du p a h
    · simp only [hc, Bool.false_eq_true, if_false, except_bind_ok,
        setItem_dict, pySetD]
      rw [ih (dictSet du (.str a) (.dict (dictSet p nk nd)))
        (dictSet p nk nd) a (dictLookup_dictSet_str_self _ _ _)]
      rw [dictSet_dictSet_self]

/-- All the filled keys are present afterwards (the fill keys in play are
string literals). -/
theorem fillNestedPure_contains (items : List (PyVal × PyVal))
    (hstr : ∀ q ∈ items, ∃ a, q.1 = PyVal.str a) :
    ∀ (p : List (PyVal × PyVal)) (nk : PyVal),
      (nk ∈ items.map Prod.fst ∨ dictContains p nk = true) →
      dictContains (fillNestedPure p items) nk = true := by
  induction items with
  | nil =>
    intro p nk h
    rcases h with h | h
    · simp at h
    · exact h
  | cons q rest ih =>
    intro p nk h
    obtain ⟨a, ha⟩ := hstr q (List.mem_cons_self _ _)
    obtain ⟨k1, d1⟩ := q
    simp only at ha
    subst ha
    have hstr' : ∀ q ∈ rest, ∃ a, q.1 = PyVal.str a := fun q hq =>
      hstr q (List.mem_cons_of_mem _ hq)
    simp only [fillNestedPure]
    by_cases hc : dictContains p (.str a) = true
    · simp only [hc, if_true]
      refine ih hstr' p nk ?_
      rcases h with h | h
      · simp only [List.map_cons, List.mem_cons] at h
        rcases h with h | h
        · right; rw [h]; exact hc
        · left; exact h
      · right; exact h
    · simp only [hc, Bool.false_eq_true, if_false]
      refine ih hstr' _ nk ?_
      rcases h with h | h
      · simp only [List.map_cons, List.mem_cons] at h
        rcases h with h | h
        · right; rw [h]; exact dictContains_dictSet_self p a d1
        · left; exact h
      · right; exact dictContains_dictSet_mono p nk _ d1 h

/-- If every fill key is already present, the nested fill is a no-op. -/
theorem fillNestedPure_all_contained (items : List (PyVal × PyVal)) :
    ∀ (p : List (PyVal × PyVal)),
      (∀ q ∈ items, dictContains p q.1 = true) →
      fillNestedPure p items = p := by
  induction items with
  | nil => intro p _; rfl
  | cons q rest ih =>
    intro p h
    obtain ⟨k1, d1⟩ := q
    simp only [fillNestedPure, h (k1, d1) (List.mem_cons_self _ _), if_true]
    exact ih p fun q hq => h q (List.mem_cons_of_mem _ hq)

/-- One top-level fill step whose default is not a dict. -/
theorem fillTopLoop_step_nondict (du : List (PyVal × PyVal)) (key dv : PyVal)
    (rest : List (PyVal × PyVal)) (hdv : ∀ nds, dv ≠ .dict nds) :
    fillTopLoop (.dict du) ((key, dv) :: rest) =
      fillTopLoop
        (.dict (if dictContains du key then du else dictSet du key dv))
        rest := by
  simp only [fillTopLoop, pyContains, except_bind_ok]
  by_cases hc : dictContains du key = true
  · simp only [hc, if_true, Bool.not_true, Bool.false_eq_true, if_false]
    cases dv with
    | dict nds => exact absurd rfl (hdv nds)
    | none => rw [pure_bind]
    | bool b => rw [pure_bind]
    | int n => rw [pure_bind]
    | str s => rw [pure_bind]
    | list xs => rw [pure_bind]
  · simp only [hc, Bool.false_eq_true, if_false, Bool.not_false, if_true,
      setItem_dict, except_bind_ok, pySetD]

/-- One top-level fill step with a dict default over a key whose current
value (when present) is a dict. -/
theorem fillTopLoop_step_dict (du : List (PyVal × PyVal)) (a : String)
    (nds : List (PyVal × PyVal)) (rest : List (PyVal × PyVal))
    (hcur : dictContains du (.str a) = false ∨
      ∃ p, dictLookup du (.str a) = some (.dict p)) :
    fillTopLoop (.dict du) ((.str a, .dict nds) :: rest) =
      fillTopLoop
        (.dict (match dictLookup du (.str a) with
          | some (.dict p) =>
            dictSet du (.str a) (.dict (fillNestedPure p nds))
          | _ => dictSet du (.str a) (.dict nds)))
        rest := by
  simp only [fillTopLoop, pyContains, except_bind_ok]
  rcases hcur with hc | ⟨p, hp⟩
  · simp only [hc, Bool.false_eq_true, if_false, Bool.not_false, if_true,
      setItem_dict, except_bind_ok, pySetD]
    have : dictLookup du (.str a) = Option.none := by
      simp only [dictContains, Option.isSome] at hc
      cases hl : dictLookup du (.str a) with
      | some v => rw [hl] at hc; simp at hc
      | none => rfl
    rw [this]
  · have hc : dictContains du (.str a) = true := by
      simp [dictContains, hp]
    simp only [hc, if_true, Bool.not_true, Bool.false_eq_true, if_false]
    rw [fillNestedLoop_dict_value nds du p a hp, except_bind_ok, hp]

/-! ## Idempotence of the `current_test` rebuild -/

theorem char_toNat_ofNat (n : Nat) (h : n < 0xD800) :
    (Char.ofNat n).toNat = n := by
  unfold Char.ofNat Char.toNat
  rw [dif_pos]
  · rfl
  · exact Or.inl (by exact_mod_cast h)

theorem pyUpperChar_idem (c : Char) :
    pyUpperChar (pyUpperChar c) = pyUpperChar c := by
  unfold pyUpperChar
  by_cases h1 : 97 ≤ c.toNat ∧ c.toNat ≤ 122
  · rw [if_pos h1]
    have ht : (Char.ofNat (c.toNat - 32)).toNat = c.toNat - 32 :=
      char_toNat_ofNat _ (by omega)
    rw [ht, if_neg (by omega), if_neg (by omega), if_neg (by omega)]
  · rw [if_neg h1]
    by_cases h2 : 0x430 ≤ c.toNat ∧ c.toNat ≤ 0x44F
    · rw [if_pos h2]
      have ht : (Char.ofNat (c.toNat - 32)).toNat = c.toNat - 32 :=
        char_toNat_ofNat _ (by omega)
      rw [ht, if_neg (by omega), if_neg (by omega), if_neg (by omega)]
    · rw [if_neg h2]
      by_cases h3 : c.toNat = 0x451
      · rw [if_pos h3]
        have ht : (Char.ofNat 0x401).toNat = 0x401 :=
          char_toNat_ofNat _ (by omega)
        rw [ht, if_neg (by omega), if_neg (by omega), if_neg (by omega)]
      · rw [if_neg h3, if_neg h1, if_neg h2, if_neg h3]

theorem pyUpper_idem (sv : String) : pyUpper (pyUpper sv) = pyUpper sv := by
  simp only [pyUpper, List.map_map]
  congr 1
  exact List.map_congr_left fun c _ => pyUpperChar_idem c

/-- The keys of the rebuilt test are unique. -/
theorem intDictSet_keys (acc : List (Int × String)) (i : Int) (sv : String) :
    (intDictSet acc i sv).map Prod.fst =
      if i ∈ acc.map Prod.fst then acc.map Prod.fst
      else acc.map Prod.fst ++ [i] := by
  induction acc with
  | nil => simp [intDictSet]
  | cons p rest ih =>
    obtain ⟨j, t⟩ := p
    by_cases h : j = i
    · subst h
      simp [intDictSet]
    · simp only [intDictSet, h, if_false, List.map_cons, ih]
      by_cases h2 : i ∈ rest.map Prod.fst
      · simp [h2, Ne.symm h]
      · simp [h2, Ne.symm h]

theorem rebuild_keys_nodup (entries : List (PyVal × PyVal)) :
    ∀ acc : List (Int × String), (acc.map Prod.fst).Nodup →
      ((rebuildTestLoop entries acc).map Prod.fst).Nodup := by
  induction entries with
  | nil => intro acc h; exact h
  | cons q rest ih =>
    intro acc h
    obtain ⟨k, v⟩ := q
    simp only [rebuildTestLoop]
    cases hk : pyInt k with
    | none => exact ih acc h
    | some i =>
      refine ih _ ?_
      rw [intDictSet_keys]
      by_cases hm : i ∈ acc.map Prod.fst
      · simp only [hm, if_true]; exact h
      · simp only [hm, if_false]
        rw [List.nodup_append]
        refine ⟨h, List.nodup_singleton i, ?_⟩
        intro a ha hai
        rw [List.mem_singleton] at hai
        subst hai
        exact hm ha

theorem intDictSet_values_fixed (acc : List (Int × String)) (i : Int)
    (sv : String) (hacc : ∀ p ∈ acc, pyUpper p.2 = p.2)
    (hsv : pyUpper sv = sv) :
    ∀ p ∈ intDictSet acc i sv, pyUpper p.2 = p.2 := by
  induction acc with
  | nil =>
    intro p hp
    simp only [intDictSet, List.mem_singleton] at hp
    subst hp
    exact hsv
  | cons q rest ih =>
    intro p hp
    obtain ⟨j, t⟩ := q
    by_cases hj : j = i
    · subst hj
      simp only [intDictSet, if_pos rfl] at hp
      cases hp with
      | head => exact hsv
      | tail _ h => exact hacc _ (List.mem_cons_of_mem _ h)
    · simp only [intDictSet, hj, if_false] at hp
      cases hp with
      | head => exact hacc _ (List.mem_cons_self _ _)
      | tail _ h => exact ih (fun p hp => hacc p (List.mem_cons_of_mem _ hp)) _ h

/-- Every value of the rebuilt test is fixed by `pyUpper`. -/
theorem rebuild_values_fixed (entries : List (PyVal × PyVal)) :
    ∀ acc : List (Int × String),
      (∀ p ∈ acc, pyUpper p.2 = p.2) →
      ∀ p ∈ rebuildTestLoop entries acc, pyUpper p.2 = p.2 := by
  induction entries with
  | nil => intro acc h; exact h
  | cons q rest ih =>
    intro acc h
    obtain ⟨k, v⟩ := q
    simp only [rebuildTestLoop]
    cases hk : pyInt k with
    | none => exact ih acc h
    | some i =>
      exact ih _ (intDictSet_values_fixed acc i (pyUpper (pyStr v)) h
        (pyUpper_idem _))

theorem intDictSet_append (acc : List (Int × String)) (i : Int)
    (sv : String) (h : i ∉ acc.map Prod.fst) :
    intDictSet acc i sv = acc ++ [(i, sv)] := by
  induction acc with
  | nil => rfl
  | cons p rest ih =>
    obtain ⟨j, t⟩ := p
    simp only [List.map_cons, List.mem_cons] at h
    push_neg at h
    simp only [intDictSet, Ne.symm h.1, if_false, List.cons_append]
    rw [ih h.2]

/-- Rebuilding an already-rebuilt answer key is the identity. -/
theorem rebuild_inject (nt : List (Int × String)) :
    ∀ acc : List (Int × String),
      (nt.map Prod.fst).Nodup →
      (∀ i, i ∈ nt.map Prod.fst → i ∉ acc.map Prod.fst) →
      (∀ p ∈ nt, pyUpper p.2 = p.2) →
      rebuildTestLoop (injectTest nt) acc = acc ++ nt := by
  induction nt with
  | nil => intro acc _ _ _; simp [injectTest, rebuildTestLoop]
  | cons p rest ih =>
    intro acc hnd hdisj hfix
    obtain ⟨i, sv⟩ := p
    simp only [injectTest] at ih ⊢
    simp only [List.map_cons, rebuildTestLoop, pyInt, pyStr]
    have hv : pyUpper sv = sv := by
      have := hfix (i, sv) (List.mem_cons_self _ _)
      simpa using this
    rw [hv]
    rw [intDictSet_append acc i sv (hdisj i (by simp))]
    have hnd' : (rest.map Prod.fst).Nodup := by
      simp only [List.map_cons, List.nodup_cons] at hnd
      exact hnd.2
    have hdisj' : ∀ j, j ∈ rest.map Prod.fst →
        j ∉ (acc ++ [(i, sv)]).map Prod.fst := by
      intro j hj
      simp only [List.map_append, List.mem_append, List.map_cons,
        List.map_nil, List.mem_singleton]
      push_neg
      constructor
      · exact hdisj j (by simp [hj])
      · intro hji
        simp only [List.map_cons, List.nodup_cons] at hnd
        exact absurd (hji ▸ hj) hnd.1
    have hfix' : ∀ p ∈ rest, pyUpper p.2 = p.2 := fun p hp =>
      hfix p (List.mem_cons_of_mem _ hp)
    rw [ih (acc ++ [(i, sv)]) hnd' hdisj' hfix']
    simp

/-! ## `current_test` is untouched by the fill loop -/

theorem fillNestedLoop_preserves (l : List (PyVal × PyVal)) (a : String) :
    ∀ (du : List (PyVal × PyVal)) (key w : PyVal), key ≠ .str a →
      fillNestedLoop (.dict du) key l = .ok w →
      ∃ dw, w = .dict dw ∧
        dictLookup dw (.str a) = dictLookup du (.str a) := by
  induction l with
  | nil =>
    intro du key w hk hw
    simp only [fillNestedLoop] at hw
    exact ⟨du, by injection hw with h; rw [← h], rfl⟩
  | cons q rest ih =>
    intro du key w hk hw
    obtain ⟨nk, nd⟩ := q
    simp only [fillNestedLoop] at hw
    rw [bind_eq_ok] at hw
    obtain ⟨v, hv, hw⟩ := hw
    rw [bind_eq_ok] at hw
    obtain ⟨b, hb, hw⟩ := hw
    by_cases hbt : b = true
    · subst hbt
      simp only [if_pos rfl] at hw
      exact ih du key w hk hw
    · simp only [Bool.not_eq_true] at hbt
      subst hbt
      simp only [Bool.false_eq_true, if_false] at hw
      rw [bind_eq_ok] at hw
      obtain ⟨v', hv', hw⟩ := hw
      rw [setItem_dict, except_bind_ok] at hw
      obtain ⟨dw, rfl, hpres⟩ := ih _ key w hk hw
      refine ⟨dw, rfl, ?_⟩
      rw [hpres]
      exact dictLookup_dictSet_ne_str' du key a v' hk

/-- The top-level fill does not modify the value under `.str a` when every
item keyed `.str a` carries a non-dict default. -/
theorem fillTopLoop_lookup_preserved (items : List (PyVal × PyVal))
    (a : String)
    (hitems : ∀ q ∈ items, q.1 = PyVal.str a → ∀ nds, q.2 ≠ .dict nds) :
    ∀ (du dw : List (PyVal × PyVal)),
      dictContains du (.str a) = true →
      fillTopLoop (.dict du) items = .ok (.dict dw) →
      dictLookup dw (.str a) = dictLookup du (.str a) := by
  induction items with
  | nil =>
    intro du dw hc hw
    simp only [fillTopLoop] at hw
    injection hw with h
    injection h with h2
    rw [h2]
  | cons q rest ih =>
    intro du dw hc hw
    obtain ⟨key, dv⟩ := q
    have hitems' : ∀ q ∈ rest, q.1 = PyVal.str a → ∀ nds, q.2 ≠ .dict nds :=
      fun q hq => hitems q (List.mem_cons_of_mem _ hq)
    simp only [fillTopLoop, pyContains, except_bind_ok] at hw
    by_cases hb : dictContains du key = true
    · simp only [hb, Bool.not_true, Bool.false_eq_true, if_false] at hw
      cases hdv : dv with
      | dict nds =>
        rw [hdv] at hw
        rw [bind_eq_ok] at hw
        obtain ⟨mid, hmid, hw⟩ := hw
        have hkey : key ≠ .str a := by
          intro hke
          exact hitems (key, dv) (List.mem_cons_self _ _) hke nds
            (by rw [hdv])
        obtain ⟨dm, rfl, hpres⟩ :=
          fillNestedLoop_preserves nds a du key mid hkey hmid
        rw [ih hitems' dm dw (by rw [dictContains, hpres]; exact hc) hw,
          hpres]
      | none =>
        rw [hdv] at hw; rw [pure_bind] at hw; exact ih hitems' du dw hc hw
      | bool b2 =>
        rw [hdv] at hw; rw [pure_bind] at hw; exact ih hitems' du dw hc hw
      | int n =>
        rw [hdv] at hw; rw [pure_bind] at hw; exact ih hitems' du dw hc hw
      | str s2 =>
        rw [hdv] at hw; rw [pure_bind] at hw; exact ih hitems' du dw hc hw
      | list xs =>
        rw [hdv] at hw; rw [pure_bind] at hw; exact ih hitems' du dw hc hw
    · simp only [hb, Bool.false_eq_true, if_false, Bool.not_false, if_true,
        setItem_dict, except_bind_ok, pySetD] at hw
      have hkey : key ≠ .str a := by
        intro hke
        rw [hke] at hb
        exact hb hc
      have hpres := dictLookup_dictSet_ne_str' du key a dv hkey
      rw [ih hitems' _ dw (by rw [dictContains, hpres]; exact hc) hw, hpres]

/-- Claim C6 (confirmed): when the state carries `current_test` as a
mapping, normalization rebuilds it as an integer-keyed, uppercased-value
mapping (entries with non-integer keys dropped; an empty result becomes
null); in particular `{"1": "a", "x": "b", "2": "C"}` becomes
`{1: "A", 2: "C"}` and `{}` becomes null. -/
theorem normalize_current_test_rebuild (s st' : PyVal)
    (d entries : List (PyVal × PyVal))
    (hs : s = .dict d)
    (hct : dictLookup d (.str "current_test") = some (.dict entries))
    (hN : normalize_state s = .ok st') :
    getItem st' (.str "current_test") =
      .ok (if (rebuildTestLoop entries []).isEmpty then PyVal.none
           else .dict (injectTest (rebuildTestLoop entries []))) ∧
    rebuildTestLoop
        [(.str "1", .str "a"), (.str "x", .str "b"), (.str "2", .str "C")]
        [] = [(1, "A"), (2, "C")] ∧
    normalize_state
        (pySetD create_initial_state (.str "current_test") (.dict [])) =
      .ok (pySetD create_initial_state (.str "current_test") PyVal.none) := by
  refine ⟨?_, by decide, by decide⟩
  subst hs
  simp only [normalize_state] at hN
  rw [bind_eq_ok] at hN
  obtain ⟨mid, hmid, hN⟩ := hN
  obtain ⟨dm, rfl⟩ := fillTopLoop_dict baseItems d mid hmid
  have hpres : dictLookup dm (.str "current_test") =
      dictLookup d (.str "current_test") := by
    refine fillTopLoop_lookup_preserved baseItems "current_test" ?_ d dm
      (by rw [dictContains, hct]; rfl) hmid
    intro q hq hq1 nds
    simp only [baseItems, List.mem_cons] at hq
    rcases hq with rfl | rfl | rfl | rfl | h
    · simp at hq1
    · simp at hq1
    · simp
    · simp at hq1
    · simp at h
  rw [hct] at hpres
  simp only [pyDictGet, hpres, Option.getD_some, rebuildField] at hN
  rw [setItem_dict] at hN
  injection hN with hN
  rw [← hN]
  rw [pySetD, getItem, dictLookup_dictSet_str_self]

/-- Claim C6 witness. -/
theorem normalize_current_test_rebuild_witness :
    getItem
        (pySetD create_initial_state (.str "current_test")
          (.dict [(.int 1, .str "A"), (.int 2, .str "C")]))
        (.str "current_test") =
      .ok (if (rebuildTestLoop
              [(.str "1", .str "a"), (.str "x", .str "b"),
               (.str "2", .str "C")] []).isEmpty then PyVal.none
           else .dict (injectTest (rebuildTestLoop
              [(.str "1", .str "a"), (.str "x", .str "b"),
               (.str "2", .str "C")] []))) ∧
    rebuildTestLoop
        [(.str "1", .str "a"), (.str "x", .str "b"), (.str "2", .str "C")]
        [] = [(1, "A"), (2, "C")] ∧
    normalize_state
        (pySetD create_initial_state (.str "current_test") (.dict [])) =
      .ok (pySetD create_initial_state (.str "current_test") PyVal.none) :=
  normalize_current_test_rebuild
    (pySetD create_initial_state (.str "current_test")
      (.dict [(.str "1", .str "a"), (.str "x", .str "b"),
              (.str "2", .str "C")]))
    (pySetD create_initial_state (.str "current_test")
      (.dict [(.int 1, .str "A"), (.int 2, .str "C")]))
    [ (.str "tutor_history", .list []), (.str "last_topic", .none),
      (.str "current_test",
        .dict [(.str "1", .str "a"), (.str "x", .str "b"),
               (.str "2", .str "C")]),
      (.str "problem_solver",
        .dict [ (.str "active", .bool false), (.str "topic", .none),
                (.str "steps", .list []), (.str "current_step", .int 0) ]) ]
    [(.str "1", .str "a"), (.str "x", .str "b"), (.str "2", .str "C")]
    (by decide) (by decide) (by decide)

/-! ## Totality corner and idempotence of `normalize_state` (C5) -/

/-- Structural completeness of a normalized state: all four top-level
fields present and all four nested `problem_solver` fields present. -/
def structurallyComplete (v : PyVal) : Bool :=
  match v with
  | .dict d =>
    dictContains d (.str "tutor_history") &&
    dictContains d (.str "last_topic") &&
    dictContains d (.str "current_test") &&
    (match dictLookup d (.str "problem_solver") with
     | some (.dict p) =>
       dictContains p (.str "active") && dictContains p (.str "topic") &&
       dictContains p (.str "steps") && dictContains p (.str "current_step")
     | _ => false)
  | _ => false

theorem contains_after_step (d : List (PyVal × PyVal)) (a : String)
    (v : PyVal) :
    dictContains
      (if dictContains d (.str a) = true then d else dictSet d (.str a) v)
      (.str a) = true := by
  by_cases h : dictContains d (.str a) = true
  · rw [if_pos h]; exact h
  · rw [if_neg h]; exact dictContains_dictSet_self d a v

theorem contains_condStep_mono (d : List (PyVal × PyVal)) (b : String)
    (v : PyVal) (k : PyVal) (h : dictContains d k = true) :
    dictContains
      (if dictContains d (.str b) = true then d else dictSet d (.str b) v)
      k = true := by
  by_cases hc : dictContains d (.str b) = true
  · rw [if_pos hc]; exact h
  · rw [if_neg hc]; exact dictContains_dictSet_mono d k _ v h

theorem lookup_condStep_ne (d : List (PyVal × PyVal)) (b a : String)
    (v : PyVal) (hba : PyVal.str b ≠ PyVal.str a) :
    dictLookup
      (if dictContains d (.str b) = true then d else dictSet d (.str b) v)
      (.str a) = dictLookup d (.str a) := by
  by_cases hc : dictContains d (.str b) = true
  · rw [if_pos hc]
  · rw [if_neg hc]
    exact dictLookup_dictSet_ne_str' d _ a v hba

/-- Claim C5, counterexample: on the mapping `{"problem_solver": 0}` the
normalizer raises `TypeError` (Python evaluates `"active" in 0`), so it is
not total and a fortiori returns no structurally complete DialogState
there. -/
theorem normalize_total_counterexample :
    normalize_state (.dict [(.str "problem_solver", .int 0)]) =
      .error .typeError := by decide

theorem rebuildField_nondict (st ctv : PyVal)
    (h : ∀ e, ctv ≠ PyVal.dict e) : rebuildField st ctv = .ok st := by
  cases ctv with
  | dict e => exact absurd rfl (h e)
  | none => rfl
  | bool b => rfl
  | int n => rfl
  | str s => rfl
  | list l => rfl

/-- On a state with all top-level and nested fields present, the fill loop
is a no-op. -/
theorem fillTopLoop_noop (dy pfill : List (PyVal × PyVal))
    (hth : dictContains dy (.str "tutor_history") = true)
    (hlt : dictContains dy (.str "last_topic") = true)
    (hct : dictContains dy (.str "current_test") = true)
    (hps : dictLookup dy (.str "problem_solver") = some (.dict pfill))
    (hpfc : ∀ nk ∈ nestedBase.map Prod.fst, dictContains pfill nk = true) :
    fillTopLoop (.dict dy) baseItems = .ok (.dict dy) := by
  show fillTopLoop (.dict dy)
    ((.str "tutor_history", .list []) :: baseItems.tail) = _
  rw [fillTopLoop_step_nondict dy (.str "tutor_history") (.list [])
    baseItems.tail (by intro nds h; cases h), if_pos hth]
  show fillTopLoop (.dict dy)
    ((.str "last_topic", PyVal.none) :: baseItems.tail.tail) = _
  rw [fillTopLoop_step_nondict dy (.str "last_topic") PyVal.none
    baseItems.tail.tail (by intro nds h; cases h), if_pos hlt]
  show fillTopLoop (.dict dy)
    ((.str "current_test", PyVal.none) :: baseItems.tail.tail.tail) = _
  rw [fillTopLoop_step_nondict dy (.str "current_test") PyVal.none
    baseItems.tail.tail.tail (by intro nds h; cases h), if_pos hct]
  show fillTopLoop (.dict dy)
    [(.str "problem_solver", .dict nestedBase)] = _
  rw [fillTopLoop_step_dict dy "problem_solver" nestedBase []
    (Or.inr ⟨pfill, hps⟩)]
  rw [hps]
  have hnoop : fillNestedPure pfill nestedBase = pfill := by
    refine fillNestedPure_all_contained nestedBase pfill ?_
    intro q hq
    exact hpfc q.1 (List.mem_map_of_mem Prod.fst hq)
  show fillTopLoop (.dict (dictSet dy (.str "problem_solver")
    (.dict (fillNestedPure pfill nestedBase)))) [] = _
  rw [hnoop, dictSet_self dy _ _ hps]
  rfl

/-- The keys of the nested defaults are present in the nested defaults. -/
theorem nestedBase_contains :
    ∀ nk ∈ nestedBase.map Prod.fst, dictContains nestedBase nk = true := by
  intro nk h
  simp only [nestedBase, List.map_cons, List.map_nil, List.mem_cons,
    List.not_mem_nil, or_false] at h
  rcases h with rfl | rfl | rfl | rfl <;> decide

/-- Claim C5 (corrected): for every input that is not a mapping, and every
mapping whose `problem_solver` field — if present — is itself a mapping,
normalization succeeds, returns a structurally complete DialogState, and
is idempotent.  (With a present non-mapping `problem_solver` the nested
fill raises `TypeError` instead, so totality over all mappings fails.) -/
theorem normalize_complete_idempotent (x : PyVal)
    (hx : ∀ d, x = .dict d →
      dictLookup d (.str "problem_solver") = Option.none ∨
      ∃ p, dictLookup d (.str "problem_solver") = some (.dict p)) :
    ∃ y, normalize_state x = .ok y ∧ structurallyComplete y = true ∧
      normalize_state y = .ok y := by
  cases x with
  | dict d =>
    -- trace the four fill steps
    have hstep1 := fillTopLoop_step_nondict d (.str "tutor_history")
      (.list []) baseItems.tail (by intro nds h; cases h)
    set d1 : List (PyVal × PyVal) :=
      if dictContains d (.str "tutor_history") = true then d
      else dictSet d (.str "tutor_history") (.list []) with hd1
    have hstep2 := fillTopLoop_step_nondict d1 (.str "last_topic")
      PyVal.none baseItems.tail.tail (by intro nds h; cases h)
    set d2 : List (PyVal × PyVal) :=
      if dictContains d1 (.str "last_topic") = true then d1
      else dictSet d1 (.str "last_topic") PyVal.none with hd2
    have hstep3 := fillTopLoop_step_nondict d2 (.str "current_test")
      PyVal.none baseItems.tail.tail.tail (by intro nds h; cases h)
    set d3 : List (PyVal × PyVal) :=
      if dictContains d2 (.str "current_test") = true then d2
      else dictSet d2 (.str "current_test") PyVal.none with hd3
    have hpres_ps : dictLookup d3 (.str "problem_solver") =
        dictLookup d (.str "problem_solver") := by
      rw [hd3, lookup_condStep_ne d2 "current_test" "problem_solver" _
        (by decide)]
      rw [hd2, lookup_condStep_ne d1 "last_topic" "problem_solver" _
        (by decide)]
      rw [hd1, lookup_condStep_ne d "tutor_history" "problem_solver" _
        (by decide)]
    have hcur : dictContains d3 (.str "problem_solver") = false ∨
        ∃ p, dictLookup d3 (.str "problem_solver") = some (.dict p) := by
      rcases hx d rfl with h | ⟨p, hp⟩
      · left
        rw [dictContains, hpres_ps, h]
        rfl
      · right
        exact ⟨p, by rw [hpres_ps, hp]⟩
    have hstep4 := fillTopLoop_step_dict d3 "problem_solver" nestedBase []
      hcur
    set pfill : List (PyVal × PyVal) :=
      match dictLookup d3 (.str "problem_solver") with
      | some (.dict p) => fillNestedPure p nestedBase
      | _ => nestedBase with hpfill
    have hstep4' : fillTopLoop (.dict d3)
        [(.str "problem_solver", .dict nestedBase)] =
        .ok (.dict (dictSet d3 (.str "problem_solver") (.dict pfill))) := by
      rw [hstep4, hpfill]
      rcases hcur with h | ⟨p, hp⟩
      · have hl : dictLookup d3 (.str "problem_solver") = Option.none := by
          simp only [dictContains, Option.isSome] at h
          cases hl : dictLookup d3 (.str "problem_solver") with
          | some v => rw [hl] at h; simp at h
          | none => rfl
        rw [hl]
        rfl
      · rw [hp]
        rfl
    set d4 : List (PyVal × PyVal) :=
      dictSet d3 (.str "problem_solver") (.dict pfill) with hd4
    have hfill : fillTopLoop (.dict d) baseItems = .ok (.dict d4) := by
      show fillTopLoop (.dict d)
        ((.str "tutor_history", .list []) :: baseItems.tail) = _
      rw [hstep1]
      show fillTopLoop (.dict d1)
        ((.str "last_topic", PyVal.none) :: baseItems.tail.tail) = _
      rw [hstep2]
      show fillTopLoop (.dict d2)
        ((.str "current_test", PyVal.none) :: baseItems.tail.tail.tail) = _
      rw [hstep3]
      exact hstep4'
    -- the four presence facts and the filled problem_solver value
    have hc_th : dictContains d4 (.str "tutor_history") = true := by
      rw [hd4]
      refine dictContains_dictSet_mono _ _ _ _ ?_
      rw [hd3]
      refine contains_condStep_mono _ _ _ _ ?_
      rw [hd2]
      refine contains_condStep_mono _ _ _ _ ?_
      rw [hd1]
      exact contains_after_step d "tutor_history" (.list [])
    have hc_lt : dictContains d4 (.str "last_topic") = true := by
      rw [hd4]
      refine dictContains_dictSet_mono _ _ _ _ ?_
      rw [hd3]
      refine contains_condStep_mono _ _ _ _ ?_
      rw [hd2]
      exact contains_after_step d1 "last_topic" PyVal.none
    have hc_ct : dictContains d4 (.str "current_test") = true := by
      rw [hd4]
      refine dictContains_dictSet_mono _ _ _ _ ?_
      rw [hd3]
      exact contains_after_step d2 "current_test" PyVal.none
    have hl_ps : dictLookup d4 (.str "problem_solver") =
        some (.dict pfill) := by
      rw [hd4]
      exact dictLookup_dictSet_str_self _ _ _
    have hpfill_contains : ∀ nk ∈ nestedBase.map Prod.fst,
        dictContains pfill nk = true := by
      intro nk hnk
      rw [hpfill]
      cases hl : dictLookup d3 (.str "problem_solver") with
      | none => exact nestedBase_contains nk hnk
      | some v =>
        cases v with
        | dict p =>
          refine fillNestedPure_contains nestedBase ?_ p nk (Or.inl hnk)
          intro q hq
          simp only [nestedBase, List.mem_cons, List.not_mem_nil,
            or_false] at hq
          rcases hq with rfl | rfl | rfl | rfl
          · exact ⟨"active", rfl⟩
          · exact ⟨"topic", rfl⟩
          · exact ⟨"steps", rfl⟩
          · exact ⟨"current_step", rfl⟩
        | none => exact nestedBase_contains nk hnk
        | bool b => exact nestedBase_contains nk hnk
        | int n => exact nestedBase_contains nk hnk
        | str sv => exact nestedBase_contains nk hnk
        | list l => exact nestedBase_contains nk hnk
    have hctv' : ∃ ctv, dictLookup d4 (.str "current_test") = some ctv := by
      simp only [dictContains, Option.isSome] at hc_ct
      cases hl : dictLookup d4 (.str "current_test") with
      | some v => exact ⟨v, rfl⟩
      | none => rw [hl] at hc_ct; simp at hc_ct
    obtain ⟨ctv, hctv⟩ := hctv'
    by_cases hdict : ∃ entries, ctv = PyVal.dict entries
    · -- the current_test value is a dict: it is rebuilt
      obtain ⟨entries, rfl⟩ := hdict
      refine ⟨.dict (dictSet d4 (.str "current_test")
          (if (rebuildTestLoop entries []).isEmpty then PyVal.none
           else .dict (injectTest (rebuildTestLoop entries [])))),
        ?_, ?_, ?_⟩
      · simp only [normalize_state]
        rw [hfill, except_bind_ok]
        simp only [pyDictGet, hctv, Option.getD_some, rebuildField]
        rw [setItem_dict]
        rfl
      · simp only [structurallyComplete, Bool.and_eq_true]
        refine ⟨⟨⟨dictContains_dictSet_mono _ _ _ _ hc_th,
          dictContains_dictSet_mono _ _ _ _ hc_lt⟩,
          dictContains_dictSet_self _ _ _⟩, ?_⟩
        rw [dictLookup_dictSet_ne_str' _ _ _ _ (by decide), hl_ps]
        simp only [Bool.and_eq_true]
        exact ⟨⟨⟨hpfill_contains (.str "active") (by decide),
          hpfill_contains (.str "topic") (by decide)⟩,
          hpfill_contains (.str "steps") (by decide)⟩,
          hpfill_contains (.str "current_step") (by decide)⟩
      · set V : PyVal :=
          if (rebuildTestLoop entries []).isEmpty then PyVal.none
          else .dict (injectTest (rebuildTestLoop entries [])) with hVdef
        set dy : List (PyVal × PyVal) :=
          dictSet d4 (.str "current_test") V with hdy
        have hy_ps : dictLookup dy (.str "problem_solver") =
            some (.dict pfill) := by
          rw [hdy, dictLookup_dictSet_ne_str' _ _ _ _ (by decide), hl_ps]
        have hnoop := fillTopLoop_noop dy pfill
          (by rw [hdy]; exact dictContains_dictSet_mono _ _ _ _ hc_th)
          (by rw [hdy]; exact dictContains_dictSet_mono _ _ _ _ hc_lt)
          (by rw [hdy]; exact dictContains_dictSet_self _ _ _)
          hy_ps hpfill_contains
        simp only [normalize_state]
        rw [hnoop, except_bind_ok]
        have hy_ctv : dictLookup dy (.str "current_test") = some V := by
          rw [hdy]
          exact dictLookup_dictSet_str_self _ _ _
        simp only [pyDictGet, hy_ctv, Option.getD_some]
        rw [hVdef]
        by_cases hemp : (rebuildTestLoop entries []).isEmpty = true
        · simp only [hemp, if_true]
          rfl
        · simp only [hemp, Bool.false_eq_true, if_false]
          simp only [rebuildField]
          have hrb : rebuildTestLoop
              (injectTest (rebuildTestLoop entries [])) [] =
              rebuildTestLoop entries [] := by
            have := rebuild_inject (rebuildTestLoop entries []) []
              (rebuild_keys_nodup entries [] (by simp))
              (by intro i _; simp)
              (rebuild_values_fixed entries [] (by intro p hp; cases hp))
            simpa using this
          rw [hrb]
          simp only [hemp, Bool.false_eq_true, if_false, setItem_dict,
            pySetD]
          have hY : dictLookup dy (.str "current_test") =
              some (.dict (injectTest (rebuildTestLoop entries []))) := by
            rw [hy_ctv, hVdef]
            simp only [hemp, Bool.false_eq_true, if_false]
          rw [dictSet_self dy _ _ hY]
    · -- the current_test value is not a dict: it is left alone
      push_neg at hdict
      have hnd : ∀ e, ctv ≠ PyVal.dict e := fun e he => hdict e he
      refine ⟨.dict d4, ?_, ?_, ?_⟩
      · simp only [normalize_state]
        rw [hfill, except_bind_ok]
        simp only [pyDictGet, hctv, Option.getD_some]
        exact rebuildField_nondict _ _ hnd
      · simp only [structurallyComplete, hl_ps, Bool.and_eq_true]
        exact ⟨⟨⟨hc_th, hc_lt⟩, hc_ct⟩,
          ⟨⟨⟨hpfill_contains (.str "active") (by decide),
            hpfill_contains (.str "topic") (by decide)⟩,
            hpfill_contains (.str "steps") (by decide)⟩,
            hpfill_contains (.str "current_step") (by decide)⟩⟩
      · have hnoop := fillTopLoop_noop d4 pfill hc_th hc_lt hc_ct hl_ps
          hpfill_contains
        simp only [normalize_state]
        rw [hnoop, except_bind_ok]
        simp only [pyDictGet, hctv, Option.getD_some]
        exact rebuildField_nondict _ _ hnd
  | none => exact ⟨create_initial_state, rfl, by decide, by decide⟩
  | bool b => exact ⟨create_initial_state, rfl, by decide, by decide⟩
  | int n => exact ⟨create_initial_state, rfl, by decide, by decide⟩
  | str s => exact ⟨create_initial_state, rfl, by decide, by decide⟩
  | list l => exact ⟨create_initial_state, rfl, by decide, by decide⟩

/-- Claim C5 witness. -/
theorem normalize_complete_idempotent_witness :
    ∃ y, normalize_state (.dict [(.str "extra", .int 7)]) = .ok y ∧
      structurallyComplete y = true ∧ normalize_state y = .ok y :=
  normalize_complete_idempotent (.dict [(.str "extra", .int 7)])
    (by intro d hd; injection hd with h; rw [← h]; left; rfl)

/-! ## Order and sorting machinery for the authenticator claims -/

theorem bytesLt_irrefl (l : List Nat) : bytesLt l l = false := by
  induction l with
  | nil => rfl
  | cons b rest ih => simp [bytesLt, ih]

theorem bytesLt_trans (a b c : List Nat) (hab : bytesLt a b = true)
    (hbc : bytesLt b c = true) : bytesLt a c = true := by
  induction a generalizing b c with
  | nil =>
    cases b with
    | nil => simp [bytesLt] at hab
    | cons y bs =>
      cases c with
      | nil => simp [bytesLt] at hbc
      | cons z cs => simp [bytesLt]
  | cons x as ih =>
    cases b with
    | nil => simp [bytesLt] at hab
    | cons y bs =>
      cases c with
      | nil => simp [bytesLt] at hbc
      | cons z cs =>
        simp only [bytesLt, Bool.or_eq_true, Bool.and_eq_true,
          decide_eq_true_eq] at hab hbc ⊢
        rcases hab with hab | ⟨hab1, hab2⟩
        · rcases hbc with hbc | ⟨hbc1, hbc2⟩
          · exact Or.inl (by omega)
          · exact Or.inl (by omega)
        · rcases hbc with hbc | ⟨hbc1, hbc2⟩
          · exact Or.inl (by omega)
          · exact Or.inr ⟨by omega, ih bs cs hab2 hbc2⟩

theorem bytesLt_connex (a b : List Nat) (hab : bytesLt a b = false)
    (hba : bytesLt b a = false) : a = b := by
  induction a generalizing b with
  | nil =>
    cases b with
    | nil => rfl
    | cons y bs => simp [bytesLt] at hab
  | cons x as ih =>
    cases b with
    | nil => simp [bytesLt] at hba
    | cons y bs =>
      simp only [bytesLt, Bool.or_eq_false_iff, Bool.and_eq_false_iff,
        decide_eq_false_iff_not] at hab hba
      obtain ⟨hab1, hab2⟩ := hab
      obtain ⟨hba1, hba2⟩ := hba
      have hxy : x = y := by omega
      subst hxy
      rcases hab2 with h | h
      · omega
      · rcases hba2 with h2 | h2
        · omega
        · rw [ih bs h h2]

theorem bytesLt_asymm (a b : List Nat) (h : bytesLt a b = true) :
    bytesLt b a = false := by
  by_contra hc
  rw [Bool.not_eq_false] at hc
  have := bytesLt_trans a b a h hc
  rw [bytesLt_irrefl] at this
  exact Bool.false_ne_true this

/-- The pair order used by `sortPairs` (non-strict, by key). -/
def pairLe (p q : List Nat × List Nat) : Prop := bytesLt q.1 p.1 = false

theorem mem_insertPair (p q : List Nat × List Nat)
    (l : List (List Nat × List Nat)) :
    q ∈ insertPair p l ↔ q = p ∨ q ∈ l := by
  induction l with
  | nil => simp [insertPair]
  | cons r rest ih =>
    simp only [insertPair]
    by_cases h : bytesLt r.1 p.1 = true
    · simp only [h, if_true, List.mem_cons, ih]
      tauto
    · rw [Bool.not_eq_true] at h
      simp only [h, Bool.false_eq_true, if_false, List.mem_cons]

theorem insertPair_perm (p : List Nat × List Nat)
    (l : List (List Nat × List Nat)) : (insertPair p l).Perm (p :: l) := by
  induction l with
  | nil => simp [insertPair]
  | cons r rest ih =>
    simp only [insertPair]
    by_cases h : bytesLt r.1 p.1 = true
    · simp only [h, if_true]
      exact (ih.cons r).trans (List.Perm.swap p r rest)
    · rw [Bool.not_eq_true] at h
      simp only [h, Bool.false_eq_true, if_false]
      exact List.Perm.refl _

theorem sortPairs_perm (l : List (List Nat × List Nat)) :
    (sortPairs l).Perm l := by
  induction l with
  | nil => rfl
  | cons p rest ih =>
    simp only [sortPairs, List.foldr_cons]
    exact (insertPair_perm p _).trans (ih.cons p)

theorem insertPair_sorted (p : List Nat × List Nat)
    (l : List (List Nat × List Nat)) (hl : l.Pairwise pairLe) :
    (insertPair p l).Pairwise pairLe := by
  induction l with
  | nil => simp [insertPair]
  | cons r rest ih =>
    rw [List.pairwise_cons] at hl
    obtain ⟨hr, hrest⟩ := hl
    simp only [insertPair]
    by_cases h : bytesLt r.1 p.1 = true
    · simp only [h, if_true]
      rw [List.pairwise_cons]
      refine ⟨?_, ih hrest⟩
      intro q hq
      rw [mem_insertPair] at hq
      rcases hq with rfl | hq
      · exact bytesLt_asymm _ _ h
      · exact hr q hq
    · rw [Bool.not_eq_true] at h
      simp only [h, Bool.false_eq_true, if_false]
      rw [List.pairwise_cons]
      refine ⟨?_, List.Pairwise.cons hr hrest⟩
      intro q hq
      rcases List.mem_cons.mp hq with rfl | hq
      · exact h
      · have hrq := hr q hq
        unfold pairLe at hrq ⊢
        by_contra hc
        rw [Bool.not_eq_false] at hc
        rcases Bool.eq_false_or_eq_true (bytesLt p.1 r.1) with h2 | h2
        · have := bytesLt_trans q.1 p.1 r.1 hc h2
          rw [this] at hrq
          simp at hrq
        · have hpr := bytesLt_connex p.1 r.1 h2 h
          rw [hpr] at hc
          rw [hc] at hrq
          simp at hrq

theorem sortPairs_sorted (l : List (List Nat × List Nat)) :
    (sortPairs l).Pairwise pairLe := by
  induction l with
  | nil => simp [sortPairs]
  | cons p rest ih =>
    simp only [sortPairs, List.foldr_cons]
    exact insertPair_sorted p _ ih

/-- Two key-sorted association lists with unique keys and the same members
are equal. -/
theorem sorted_nodup_mem_eq :
    ∀ (l1 l2 : List (List Nat × List Nat)),
      l1.Pairwise pairLe → l2.Pairwise pairLe →
      (l1.map Prod.fst).Nodup → (l2.map Prod.fst).Nodup →
      (∀ p, p ∈ l1 ↔ p ∈ l2) → l1 = l2 := by
  intro l1
  induction l1 with
  | nil =>
    intro l2 _ _ _ _ hmem
    cases l2 with
    | nil => rfl
    | cons q t2 => exact absurd ((hmem q).mpr (List.mem_cons_self _ _)) (by simp)
  | cons p t1 ih =>
    intro l2 hs1 hs2 hn1 hn2 hmem
    cases l2 with
    | nil => exact absurd ((hmem p).mp (List.mem_cons_self _ _)) (by simp)
    | cons q t2 =>
      rw [List.pairwise_cons] at hs1 hs2
      simp only [List.map_cons, List.nodup_cons] at hn1 hn2
      -- strictness of the chains
      have hstrict1 : ∀ r ∈ t1, bytesLt p.1 r.1 = true := by
        intro r hr
        have hle := hs1.1 r hr
        unfold pairLe at hle
        rcases Bool.eq_false_or_eq_true (bytesLt p.1 r.1) with h2 | h2
        · exact h2
        · have heq := bytesLt_connex p.1 r.1 h2 hle
          exact absurd (by rw [heq]; exact List.mem_map_of_mem Prod.fst hr)
            hn1.1
      have hstrict2 : ∀ r ∈ t2, bytesLt q.1 r.1 = true := by
        intro r hr
        have hle := hs2.1 r hr
        unfold pairLe at hle
        rcases Bool.eq_false_or_eq_true (bytesLt q.1 r.1) with h2 | h2
        · exact h2
        · have heq := bytesLt_connex q.1 r.1 h2 hle
          exact absurd (by rw [heq]; exact List.mem_map_of_mem Prod.fst hr)
            hn2.1
      have hpq : p = q := by
        rcases List.mem_cons.mp ((hmem p).mp (List.mem_cons_self _ _)) with
          h | hpt2
        · exact h
        · rcases List.mem_cons.mp ((hmem q).mpr (List.mem_cons_self _ _))
            with h | hqt1
          · exact h.symm
          · have h1 := hstrict2 p hpt2
            have h2 := hstrict1 q hqt1
            have := bytesLt_trans _ _ _ h1 h2
            rw [bytesLt_irrefl] at this
            exact absurd this Bool.false_ne_true
      subst hpq
      have hmem' : ∀ r, r ∈ t1 ↔ r ∈ t2 := by
        intro r
        constructor
        · intro hr
          rcases List.mem_cons.mp ((hmem r).mp
            (List.mem_cons_of_mem _ hr)) with h | h
          · subst h
            have := hstrict1 r hr
            rw [bytesLt_irrefl] at this
            exact absurd this Bool.false_ne_true
          · exact h
        · intro hr
          rcases List.mem_cons.mp ((hmem r).mpr
            (List.mem_cons_of_mem _ hr)) with h | h
          · subst h
            have := hstrict2 r hr
            rw [bytesLt_irrefl] at this
            exact absurd this Bool.false_ne_true
          · exact h
      rw [ih t2 hs1.2 hs2.2 hn1.2 hn2.2 hmem']

/-! ## Dict-collapse algebra for the authenticator -/

theorem bDictSet_keys (d : List (List Nat × List Nat)) (k v : List Nat) :
    (bDictSet d k v).map Prod.fst =
      if k ∈ d.map Prod.fst then d.map Prod.fst
      else d.map Prod.fst ++ [k] := by
  induction d with
  | nil => simp [bDictSet]
  | cons p rest ih =>
    obtain ⟨a, w⟩ := p
    by_cases h : a = k
    · subst h
      simp [bDictSet]
    · simp only [bDictSet, h, if_false, List.map_cons, ih]
      by_cases h2 : k ∈ rest.map Prod.fst
      · simp [h2, Ne.symm h]
      · simp [h2, Ne.symm h]

theorem toDictFold_keys_nodup (l : List (List Nat × List Nat)) :
    ∀ acc : List (List Nat × List Nat), (acc.map Prod.fst).Nodup →
      ((l.foldl (fun d p => bDictSet d p.1 p.2) acc).map Prod.fst).Nodup := by
  induction l with
  | nil => intro acc h; exact h
  | cons p rest ih =>
    intro acc h
    simp only [List.foldl_cons]
    refine ih _ ?_
    rw [bDictSet_keys]
    by_cases hm : p.1 ∈ acc.map Prod.fst
    · simp only [hm, if_true]; exact h
    · simp only [hm, if_false]
      rw [List.nodup_append]
      refine ⟨h, List.nodup_singleton _, ?_⟩
      intro a ha hai
      rw [List.mem_singleton] at hai
      subst hai
      exact hm ha

theorem toDict_keys_nodup (l : List (List Nat × List Nat)) :
    ((toDict l).map Prod.fst).Nodup :=
  toDictFold_keys_nodup l [] (by simp)

theorem bLookup_eq_none (d : List (List Nat × List Nat)) (k : List Nat) :
    bLookup d k = Option.none ↔ k ∉ d.map Prod.fst := by
  induction d with
  | nil => simp [bLookup]
  | cons p rest ih =>
    obtain ⟨a, v⟩ := p
    by_cases h : a = k
    · subst h
      simp [bLookup]
    · simp [bLookup, h, ih, Ne.symm h]

theorem mem_iff_bLookup (d : List (List Nat × List Nat))
    (hd : (d.map Prod.fst).Nodup) (k v : List Nat) :
    (k, v) ∈ d ↔ bLookup d k = some v := by
  induction d with
  | nil => simp [bLookup]
  | cons p rest ih =>
    obtain ⟨a, w⟩ := p
    simp only [List.map_cons, List.nodup_cons] at hd
    by_cases h : a = k
    · subst h
      simp only [bLookup, eq_self_iff_true, if_true, List.mem_cons,
        Option.some_inj]
      constructor
      · intro hm
        rcases hm with hm | hm
        · injection hm with h1 h2
          exact h2.symm
        · exact absurd (List.mem_map_of_mem Prod.fst hm) hd.1
      · intro hv
        exact Or.inl (by rw [hv])
    · simp only [bLookup, h, if_false, List.mem_cons]
      rw [← ih hd.2]
      constructor
      · intro hm
        rcases hm with hm | hm
        · injection hm with h1 h2
          exact absurd h1.symm h
        · exact hm
      · exact Or.inr

theorem bRemove_keys_sublist (d : List (List Nat × List Nat))
    (k : List Nat) :
    ((bRemove d k).map Prod.fst).Sublist (d.map Prod.fst) := by
  induction d with
  | nil => simp [bRemove]
  | cons p rest ih =>
    obtain ⟨a, v⟩ := p
    by_cases h : a = k
    · subst h
      simp only [bRemove, if_pos rfl, List.map_cons]
      exact (List.sublist_cons_self _ _)
    · simp only [bRemove, h, if_false, List.map_cons]
      exact ih.cons₂ a

theorem bRemove_keys_nodup (d : List (List Nat × List Nat))
    (hd : (d.map Prod.fst).Nodup) (k : List Nat) :
    ((bRemove d k).map Prod.fst).Nodup :=
  (bRemove_keys_sublist d k).nodup hd

theorem bLookup_bRemove (d : List (List Nat × List Nat))
    (hd : (d.map Prod.fst).Nodup) (k0 k : List Nat) :
    bLookup (bRemove d k0) k =
      if k = k0 then Option.none else bLookup d k := by
  induction d with
  | nil => simp [bRemove, bLookup]
  | cons p rest ih =>
    obtain ⟨a, v⟩ := p
    simp only [List.map_cons, List.nodup_cons] at hd
    by_cases h : a = k0
    · subst h
      by_cases h2 : k = a
      · subst h2
        simp [bRemove, (bLookup_eq_none rest k).mpr hd.1]
      · have h2' : ¬ a = k := fun hh => h2 hh.symm
        simp [bRemove, bLookup, h2, h2']
    · by_cases h2 : a = k
      · subst h2
        have hk : ¬ a = k0 := h
        simp [bRemove, bLookup, h, hk]
      · simp [bRemove, bLookup, h, h2, ih hd.2]

/-- The authenticator's outcome is a function of the collapsed key→value
map alone: payloads with the same per-key last occurrences produce the
same canonical check string and the same verification result. -/
theorem verifyBytes_lookup_det (w : WebEnv) (token : String)
    (data1 data2 : List Nat) (h1 : data1 ≠ []) (h2 : data2 ≠ [])
    (hlast : ∀ k, bLookup (toDict (parse_qsl data1)) k =
                  bLookup (toDict (parse_qsl data2)) k) :
    dataCheckString (bRemove (toDict (parse_qsl data1)) hashKey) =
      dataCheckString (bRemove (toDict (parse_qsl data2)) hashKey) ∧
    verifyBytes w token data1 = verifyBytes w token data2 := by
  have hn1 := toDict_keys_nodup (parse_qsl data1)
  have hn2 := toDict_keys_nodup (parse_qsl data2)
  have hr1 := bRemove_keys_nodup _ hn1 hashKey
  have hr2 := bRemove_keys_nodup _ hn2 hashKey
  have hlkr : ∀ k, bLookup (bRemove (toDict (parse_qsl data1)) hashKey) k =
      bLookup (bRemove (toDict (parse_qsl data2)) hashKey) k := by
    intro k
    rw [bLookup_bRemove _ hn1, bLookup_bRemove _ hn2, hlast k]
  have hmem : ∀ p, p ∈ bRemove (toDict (parse_qsl data1)) hashKey ↔
      p ∈ bRemove (toDict (parse_qsl data2)) hashKey := by
    intro ⟨k, v⟩
    rw [mem_iff_bLookup _ hr1, mem_iff_bLookup _ hr2, hlkr k]
  have hsorteq : sortPairs (bRemove (toDict (parse_qsl data1)) hashKey) =
      sortPairs (bRemove (toDict (parse_qsl data2)) hashKey) := by
    refine sorted_nodup_mem_eq _ _ (sortPairs_sorted _) (sortPairs_sorted _)
      ?_ ?_ ?_
    · exact ((sortPairs_perm _).map Prod.fst).nodup_iff.mpr hr1
    · exact ((sortPairs_perm _).map Prod.fst).nodup_iff.mpr hr2
    · intro p
      rw [(sortPairs_perm _).mem_iff, (sortPairs_perm _).mem_iff]
      exact hmem p
  have hdcs : dataCheckString (bRemove (toDict (parse_qsl data1)) hashKey) =
      dataCheckString (bRemove (toDict (parse_qsl data2)) hashKey) := by
    unfold dataCheckString
    rw [hsorteq]
  refine ⟨hdcs, ?_⟩
  unfold verifyBytes
  by_cases htok : token = ""
  · rw [if_pos htok, if_pos htok]
  · rw [if_neg htok, if_neg htok, if_neg h1, if_neg h2]
    simp only [hlast hashKey, hdcs, hlkr userKey]

/-! ## Branch-by-branch evaluation of the authenticator (C1) -/

/-- The `calculated_hash` of `verify_telegram_init_data` (web_app.py:113-118):
the hex-encoded HMAC-SHA256 of the canonical check string, keyed by the raw
SHA-256 digest of the shared secret. -/
def expectedHash (w : WebEnv) (token : String) (data : List Nat) : List Nat :=
  hexEncode (w.hmac_sha256 (w.sha256 (strBytes token))
    (dataCheckString (bRemove (toDict (parse_qsl data)) hashKey)))

theorem verify_eval_no_hash (w : WebEnv) (token init_data : String)
    (htok : token ≠ "") (hdata : strBytes init_data ≠ [])
    (hh : bLookup (toDict (parse_qsl (strBytes init_data))) hashKey =
      Option.none) :
    verify_telegram_init_data w token init_data =
      .error ⟨400, "–ù–µ—Ç hash –≤ initData."⟩ := by
  unfold verify_telegram_init_data verifyBytes
  rw [if_neg htok, if_neg hdata]
  simp only [hh]

theorem verify_eval_empty_hash (w : WebEnv) (token init_data : String)
    (htok : token ≠ "") (hdata : strBytes init_data ≠ [])
    (hh : bLookup (toDict (parse_qsl (strBytes init_data))) hashKey =
      some []) :
    verify_telegram_init_data w token init_data =
      .error ⟨400, "–ù–µ—Ç hash –≤ initData."⟩ := by
  unfold verify_telegram_init_data verifyBytes
  rw [if_neg htok, if_neg hdata]
  simp only [hh]
  rfl

theorem verify_eval_mismatch (w : WebEnv) (token init_data : String)
    (hsh : List Nat)
    (htok : token ≠ "") (hdata : strBytes init_data ≠ [])
    (hh : bLookup (toDict (parse_qsl (strBytes init_data))) hashKey =
      some hsh)
    (hne : hsh ≠ [])
    (hm : expectedHash w token (strBytes init_data) ≠ hsh) :
    verify_telegram_init_data w token init_data =
      .error ⟨403, "–ù–µ–≤–µ—Ä–Ω–∞—è –ø–æ–¥–ø–∏—Å—å Telegram."⟩ := by
  unfold verify_telegram_init_data verifyBytes
  rw [if_neg htok, if_neg hdata]
  simp only [hh]
  rw [if_neg hne, if_pos]
  exact hm

theorem verify_eval_user_missing (w : WebEnv) (token init_data : String)
    (htok : token ≠ "") (hdata : strBytes init_data ≠ [])
    (hh : bLookup (toDict (parse_qsl (strBytes init_data))) hashKey =
      some (expectedHash w token (strBytes init_data)))
    (hne : expectedHash w token (strBytes init_data) ≠ [])
    (hu : bLookup (bRemove (toDict (parse_qsl (strBytes init_data)))
        hashKey) userKey = Option.none) :
    verify_telegram_init_data w token init_data =
      .error ⟨400, "–ù–µ—Ç user –≤ initData."⟩ := by
  unfold verify_telegram_init_data verifyBytes
  rw [if_neg htok, if_neg hdata]
  simp only [hh]
  have hfold : hexEncode (w.hmac_sha256 (w.sha256 (strBytes token))
      (dataCheckString (bRemove (toDict (parse_qsl (strBytes init_data)))
        hashKey))) = expectedHash w token (strBytes init_data) := rfl
  rw [if_neg hne, hfold, if_neg (not_not_intro rfl)]
  simp only [hu]

theorem verify_eval_user_empty (w : WebEnv) (token init_data : String)
    (htok : token ≠ "") (hdata : strBytes init_data ≠ [])
    (hh : bLookup (toDict (parse_qsl (strBytes init_data))) hashKey =
      some (expectedHash w token (strBytes init_data)))
    (hne : expectedHash w token (strBytes init_data) ≠ [])
    (hu : bLookup (bRemove (toDict (parse_qsl (strBytes init_data)))
        hashKey) userKey = some []) :
    verify_telegram_init_data w token init_data =
      .error ⟨400, "–ù–µ—Ç user –≤ initData."⟩ := by
  unfold verify_telegram_init_data verifyBytes
  rw [if_neg htok, if_neg hdata]
  simp only [hh]
  have hfold : hexEncode (w.hmac_sha256 (w.sha256 (strBytes token))
      (dataCheckString (bRemove (toDict (parse_qsl (strBytes init_data)))
        hashKey))) = expectedHash w token (strBytes init_data) := rfl
  rw [if_neg hne, hfold, if_neg (not_not_intro rfl)]
  simp only [hu]
  rfl

theorem verify_eval_bad_json (w : WebEnv) (token init_data : String)
    (uj : List Nat)
    (htok : token ≠ "") (hdata : strBytes init_data ≠ [])
    (hh : bLookup (toDict (parse_qsl (strBytes init_data))) hashKey =
      some (expectedHash w token (strBytes init_data)))
    (hne : expectedHash w token (strBytes init_data) ≠ [])
    (hu : bLookup (bRemove (toDict (parse_qsl (strBytes init_data)))
        hashKey) userKey = some uj)
    (huje : uj ≠ [])
    (hj : w.json_loads uj = Option.none) :
    verify_telegram_init_data w token init_data =
      .error ⟨400, "–ù–µ–∫–æ—Ä—Ä–µ–∫—Ç–Ω—ã–π JSON user."⟩ := by
  unfold verify_telegram_init_data verifyBytes
  rw [if_neg htok, if_neg hdata]
  simp only [hh]
  have hfold : hexEncode (w.hmac_sha256 (w.sha256 (strBytes token))
      (dataCheckString (bRemove (toDict (parse_qsl (strBytes init_data)))
        hashKey))) = expectedHash w token (strBytes init_data) := rfl
  rw [if_neg hne, hfold, if_neg (not_not_intro rfl)]
  simp only [hu]
  rw [if_neg huje]
  simp only [hj]

theorem verify_eval_ok (w : WebEnv) (token init_data : String)
    (uj : List Nat) (user : PyVal)
    (htok : token ≠ "") (hdata : strBytes init_data ≠ [])
    (hh : bLookup (toDict (parse_qsl (strBytes init_data))) hashKey =
      some (expectedHash w token (strBytes init_data)))
    (hne : expectedHash w token (strBytes init_data) ≠ [])
    (hu : bLookup (bRemove (toDict (parse_qsl (strBytes init_data)))
        hashKey) userKey = some uj)
    (huje : uj ≠ [])
    (hj : w.json_loads uj = some user) :
    verify_telegram_init_data w token init_data = .ok user := by
  unfold verify_telegram_init_data verifyBytes
  rw [if_neg htok, if_neg hdata]
  simp only [hh]
  have hfold : hexEncode (w.hmac_sha256 (w.sha256 (strBytes token))
      (dataCheckString (bRemove (toDict (parse_qsl (strBytes init_data)))
        hashKey))) = expectedHash w token (strBytes init_data) := rfl
  rw [if_neg hne, hfold, if_neg (not_not_intro rfl)]
  simp only [hu]
  rw [if_neg huje]
  simp only [hj]

/-- A concrete library environment for witnesses: the digest functions are
inert stubs and the JSON parser accepts everything. -/
def trivWebEnv : WebEnv where
  sha256 := fun _ => []
  hmac_sha256 := fun _ _ => []
  json_loads := fun _ => some PyVal.none

/-- Claim C1 (confirmed): with a configured secret, the verifier accepts
exactly when the payload's extracted hash equals the hex-encoded
HMAC-SHA256 of the canonical check string keyed by the raw SHA-256 digest
of the secret and the user field is present and parses as JSON (yielding
the parsed user object); a non-matching extractable hash yields the
403 forbidden error, and after a matching signature every failure is a
400 bad-request error. -/
theorem verify_accepts_iff_hmac (w : WebEnv) (token init_data : String)
    (htok : token ≠ "") :
    (∀ u, verify_telegram_init_data w token init_data = .ok u ↔
      (strBytes init_data ≠ [] ∧
       bLookup (toDict (parse_qsl (strBytes init_data))) hashKey =
         some (expectedHash w token (strBytes init_data)) ∧
       expectedHash w token (strBytes init_data) ≠ [] ∧
       ∃ uj, bLookup (bRemove (toDict (parse_qsl (strBytes init_data)))
           hashKey) userKey = some uj ∧ uj ≠ [] ∧
         w.json_loads uj = some u)) ∧
    (∀ hsh, strBytes init_data ≠ [] →
      bLookup (toDict (parse_qsl (strBytes init_data))) hashKey =
        some hsh →
      hsh ≠ [] →
      hsh ≠ expectedHash w token (strBytes init_data) →
      verify_telegram_init_data w token init_data =
        .error ⟨403, "–ù–µ–≤–µ—Ä–Ω–∞—è –ø–æ–¥–ø–∏—Å—å Telegram."⟩) ∧
    (strBytes init_data ≠ [] →
     bLookup (toDict (parse_qsl (strBytes init_data))) hashKey =
       some (expectedHash w token (strBytes init_data)) →
     expectedHash w token (strBytes init_data) ≠ [] →
     (∀ u, verify_telegram_init_data w token init_data ≠ .ok u) →
     ∃ dtl, verify_telegram_init_data w token init_data =
       .error ⟨400, dtl⟩) := by
  refine ⟨?_, ?_, ?_⟩
  · intro u
    by_cases hdata : strBytes init_data = []
    · have hv : verify_telegram_init_data w token init_data =
          .error ⟨400, "–ü—É—Å—Ç—ã–µ –¥–∞–Ω–Ω—ã–µ Telegram."⟩ := by
        unfold verify_telegram_init_data verifyBytes
        rw [if_neg htok, if_pos hdata]
      rw [hv]
      simp [hdata]
    · cases hh : bLookup (toDict (parse_qsl (strBytes init_data)))
        hashKey with
      | none =>
        rw [verify_eval_no_hash w token init_data htok hdata hh]
        simp [hh]
      | some hsh =>
        by_cases hhe : hsh = []
        · subst hhe
          rw [verify_eval_empty_hash w token init_data htok hdata hh]
          refine iff_of_false (by simp) ?_
          rintro ⟨-, hsome, hCne, -⟩
          injection hsome with he
          exact hCne he.symm
        · by_cases hm : expectedHash w token (strBytes init_data) = hsh
          · subst hm
            cases hu : bLookup (bRemove (toDict (parse_qsl
                (strBytes init_data))) hashKey) userKey with
            | none =>
              rw [verify_eval_user_missing w token init_data htok hdata hh
                hhe hu]
              refine iff_of_false (by simp) ?_
              rintro ⟨-, -, -, uj, huj, -, -⟩
              simp at huj
            | some uj =>
              by_cases huje : uj = []
              · subst huje
                rw [verify_eval_user_empty w token init_data htok hdata hh
                  hhe hu]
                refine iff_of_false (by simp) ?_
                rintro ⟨-, -, -, uj', huj', hujne, -⟩
                injection huj' with he
                exact hujne he.symm
              · cases hj : w.json_loads uj with
                | none =>
                  rw [verify_eval_bad_json w token init_data uj htok hdata
                    hh hhe hu huje hj]
                  refine iff_of_false (by simp) ?_
                  rintro ⟨-, -, -, uj', huj', -, hjs⟩
                  injection huj' with he
                  rw [← he] at hjs
                  rw [hj] at hjs
                  simp at hjs
                | some user =>
                  rw [verify_eval_ok w token init_data uj user htok hdata
                    hh hhe hu huje hj]
                  constructor
                  · intro h
                    injection h with he
                    refine ⟨hdata, rfl, hhe, uj, rfl, huje, ?_⟩
                    rw [hj, he]
                  · rintro ⟨-, -, -, uj', huj', -, hjs⟩
                    injection huj' with he
                    rw [← he] at hjs
                    rw [hj] at hjs
                    injection hjs with he2
                    rw [he2]
          · rw [verify_eval_mismatch w token init_data hsh htok hdata hh
              hhe hm]
            refine iff_of_false (by simp) ?_
            rintro ⟨-, hsome, -, -⟩
            injection hsome with he
            exact hm he.symm
  · intro hsh hdata hh hne hm2
    exact verify_eval_mismatch w token init_data hsh htok hdata hh hne
      (fun he => hm2 he.symm)
  · intro hdata hh hne hnok
    cases hu : bLookup (bRemove (toDict (parse_qsl
        (strBytes init_data))) hashKey) userKey with
    | none =>
      exact ⟨_, verify_eval_user_missing w token init_data htok hdata hh
        hne hu⟩
    | some uj =>
      by_cases huje : uj = []
      · subst huje
        exact ⟨_, verify_eval_user_empty w token init_data htok hdata hh
          hne hu⟩
      · cases hj : w.json_loads uj with
        | none =>
          exact ⟨_, verify_eval_bad_json w token init_data uj htok hdata
            hh hne hu huje hj⟩
        | some user =>
          exact absurd (verify_eval_ok w token init_data uj user htok
            hdata hh hne hu huje hj) (hnok user)

/-- Claim C1 witness. -/
theorem verify_accepts_iff_hmac_witness :
    (∀ u, verify_telegram_init_data trivWebEnv "t" "x=1" = .ok u ↔
      (strBytes "x=1" ≠ [] ∧
       bLookup (toDict (parse_qsl (strBytes "x=1"))) hashKey =
         some (expectedHash trivWebEnv "t" (strBytes "x=1")) ∧
       expectedHash trivWebEnv "t" (strBytes "x=1") ≠ [] ∧
       ∃ uj, bLookup (bRemove (toDict (parse_qsl (strBytes "x=1")))
           hashKey) userKey = some uj ∧ uj ≠ [] ∧
         trivWebEnv.json_loads uj = some u)) ∧
    (∀ hsh, strBytes "x=1" ≠ [] →
      bLookup (toDict (parse_qsl (strBytes "x=1"))) hashKey = some hsh →
      hsh ≠ [] →
      hsh ≠ expectedHash trivWebEnv "t" (strBytes "x=1") →
      verify_telegram_init_data trivWebEnv "t" "x=1" =
        .error ⟨403, "–ù–µ–≤–µ—Ä–Ω–∞—è –ø–æ–¥–ø–∏—Å—å Telegram."⟩) ∧
    (strBytes "x=1" ≠ [] →
     bLookup (toDict (parse_qsl (strBytes "x=1"))) hashKey =
       some (expectedHash trivWebEnv "t" (strBytes "x=1")) →
     expectedHash trivWebEnv "t" (strBytes "x=1") ≠ [] →
     (∀ u, verify_telegram_init_data trivWebEnv "t" "x=1" ≠ .ok u) →
     ∃ dtl, verify_telegram_init_data trivWebEnv "t" "x=1" =
       .error ⟨400, dtl⟩) :=
  verify_accepts_iff_hmac trivWebEnv "t" "x=1" (by decide)

/-! ## Permutation of payload fields (C9) and duplicate keys (C10) -/

theorem splitOnByte_ne_nil (sep : Nat) (l : List Nat) :
    splitOnByte sep l ≠ [] := by
  cases l with
  | nil => simp [splitOnByte]
  | cons b rest =>
    simp only [splitOnByte]
    by_cases h : b = sep
    · rw [if_pos h]
      simp
    · rw [if_neg h]
      cases hr : splitOnByte sep rest with
      | nil => simp
      | cons c cs => simp

theorem splitOnByte_eq_singleton_nil (sep : Nat) (data : List Nat)
    (h : splitOnByte sep data = [[]]) : data = [] := by
  cases data with
  | nil => rfl
  | cons b rest =>
    exfalso
    simp only [splitOnByte] at h
    by_cases hb : b = sep
    · rw [if_pos hb] at h
      injection h with h1 h2
      exact splitOnByte_ne_nil sep rest h2
    · rw [if_neg hb] at h
      cases hr : splitOnByte sep rest with
      | nil => rw [hr] at h; simp at h
      | cons c cs => rw [hr] at h; simp at h

theorem bDictSet_not_mem (d : List (List Nat × List Nat)) (k v : List Nat)
    (h : k ∉ d.map Prod.fst) : bDictSet d k v = d ++ [(k, v)] := by
  induction d with
  | nil => rfl
  | cons p rest ih =>
    obtain ⟨a, u⟩ := p
    simp only [List.map_cons, List.mem_cons] at h
    push_neg at h
    simp only [bDictSet]
    rw [if_neg (fun he => h.1 he.symm), ih h.2]
    rfl

theorem toDictFold_append (l : List (List Nat × List Nat)) :
    ∀ acc, (∀ k ∈ l.map Prod.fst, k ∉ acc.map Prod.fst) →
      (l.map Prod.fst).Nodup →
      l.foldl (fun d p => bDictSet d p.1 p.2) acc = acc ++ l := by
  induction l with
  | nil => intro acc _ _; simp
  | cons p rest ih =>
    intro acc hdis hnd
    simp only [List.foldl_cons]
    rw [bDictSet_not_mem acc p.1 p.2 (hdis p.1 (by simp))]
    have hdis2 : ∀ k ∈ rest.map Prod.fst,
        k ∉ (acc ++ [(p.1, p.2)]).map Prod.fst := by
      intro k hk hmem
      rw [List.map_append, List.mem_append] at hmem
      rcases hmem with hc | hc
      · have hmem' : k ∈ List.map Prod.fst (p :: rest) := by
          simp only [List.map_cons, List.mem_cons]
          exact Or.inr hk
        exact hdis k hmem' hc
      · simp only [List.map_cons, List.map_nil, List.mem_singleton] at hc
        subst hc
        simp only [List.map_cons, List.nodup_cons] at hnd
        exact hnd.1 hk
    have hnd2 : (rest.map Prod.fst).Nodup := by
      simp only [List.map_cons, List.nodup_cons] at hnd
      exact hnd.2
    rw [ih (acc ++ [(p.1, p.2)]) hdis2 hnd2]
    simp

/-- When the parsed pairs already have pairwise-distinct keys, the
`dict(...)` collapse is the identity. -/
theorem toDict_id_of_nodup (l : List (List Nat × List Nat))
    (h : (l.map Prod.fst).Nodup) : toDict l = l := by
  have hf := toDictFold_append l [] (by intro k _ hc; simp at hc) h
  simpa [toDict] using hf

/-- Lookup in an association list with distinct keys is invariant under
permutation of the entries. -/
theorem bLookup_eq_of_perm (l1 l2 : List (List Nat × List Nat))
    (h : l1.Perm l2) (hn : (l1.map Prod.fst).Nodup) (k : List Nat) :
    bLookup l1 k = bLookup l2 k := by
  have hn2 : (l2.map Prod.fst).Nodup := ((h.map Prod.fst).nodup_iff).mp hn
  cases hv : bLookup l1 k with
  | none =>
    have hv' := (bLookup_eq_none l1 k).mp hv
    have hv2 : k ∉ l2.map Prod.fst :=
      fun hm => hv' (((h.map Prod.fst).mem_iff).mpr hm)
    exact ((bLookup_eq_none l2 k).mpr hv2).symm
  | some v =>
    exact ((mem_iff_bLookup l2 hn2 k v).mp
      (h.mem_iff.mp ((mem_iff_bLookup l1 hn k v).mpr hv))).symm

/-- A payload whose collapsed map has no (or an empty) hash entry is
rejected with some error, whatever the secret. -/
theorem verifyBytes_no_hash_error (w : WebEnv) (token : String)
    (data : List Nat)
    (h : bLookup (toDict (parse_qsl data)) hashKey = Option.none ∨
         bLookup (toDict (parse_qsl data)) hashKey = some []) :
    ∃ e, verifyBytes w token data = .error e := by
  by_cases htok : token = ""
  · exact ⟨_, by unfold verifyBytes; rw [if_pos htok]⟩
  · by_cases hd : data = []
    · exact ⟨_, by unfold verifyBytes; rw [if_neg htok, if_pos hd]⟩
    · rcases h with h | h
      · exact ⟨⟨400, "–ù–µ—Ç hash –≤ initData."⟩, by
          unfold verifyBytes
          rw [if_neg htok, if_neg hd]
          simp only [h]⟩
      · exact ⟨⟨400, "–ù–µ—Ç hash –≤ initData."⟩, by
          unfold verifyBytes
          rw [if_neg htok, if_neg hd]
          simp only [h]
          rfl⟩

/-- A library environment in which the HMAC echoes its message: it makes
the computed signature depend visibly on the check string. -/
def echoWebEnv : WebEnv where
  sha256 := fun l => l
  hmac_sha256 := fun _ m => m
  json_loads := fun _ => some PyVal.none

/-- Claim C9 counterexample: the payloads `a=1&a=2&hash=613d32` and
`a=2&a=1&hash=613d32` have exactly the same `&`-separated fields in a
different order, yet the verifier builds different canonical check strings
for them, and (under an environment whose HMAC echoes the check string)
the first passes signature verification while the second is rejected with
the 403 invalid-signature error: reordering duplicate-key fields changes
which occurrence survives the dict collapse. -/
theorem verify_perm_duplicate_counterexample :
    (splitOnByte 38 (strBytes "a=1&a=2&hash=613d32")).Perm
      (splitOnByte 38 (strBytes "a=2&a=1&hash=613d32")) ∧
    dataCheckString (bRemove (toDict (parse_qsl
        (strBytes "a=1&a=2&hash=613d32"))) hashKey) ≠
      dataCheckString (bRemove (toDict (parse_qsl
        (strBytes "a=2&a=1&hash=613d32"))) hashKey) ∧
    verifyBytes echoWebEnv "t" (strBytes "a=1&a=2&hash=613d32") =
      .error ⟨400, "–ù–µ—Ç user –≤ initData."⟩ ∧
    verifyBytes echoWebEnv "t" (strBytes "a=2&a=1&hash=613d32") =
      .error ⟨403, "–ù–µ–≤–µ—Ä–Ω–∞—è –ø–æ–¥–ø–∏—Å—å Telegram."⟩ := by
  refine ⟨by decide, by decide, by decide, by decide⟩

/-- Claim C9 (amended): when the payload fields parse to pairwise-distinct
keys, permuting the `&`-separated fields leaves the canonical check string
— hence the computed HMAC and the whole verification outcome — unchanged;
and a payload from whose collapsed map no (or only an empty) hash can be
extracted is always rejected with an error, for every secret. -/
theorem verify_perm_invariant (w : WebEnv) (token : String)
    (data1 data2 : List Nat)
    (hperm : (splitOnByte 38 data1).Perm (splitOnByte 38 data2))
    (hnodup : ((parse_qsl data1).map Prod.fst).Nodup) :
    dataCheckString (bRemove (toDict (parse_qsl data1)) hashKey) =
      dataCheckString (bRemove (toDict (parse_qsl data2)) hashKey) ∧
    verifyBytes w token data1 = verifyBytes w token data2 ∧
    ((bLookup (toDict (parse_qsl data1)) hashKey = Option.none ∨
      bLookup (toDict (parse_qsl data1)) hashKey = some []) →
     ∃ e, verifyBytes w token data1 = .error e) := by
  have hpq : (parse_qsl data1).Perm (parse_qsl data2) :=
    hperm.filterMap parseChunk
  have hnodup2 : ((parse_qsl data2).map Prod.fst).Nodup :=
    ((hpq.map Prod.fst).nodup_iff).mp hnodup
  have ht1 : toDict (parse_qsl data1) = parse_qsl data1 :=
    toDict_id_of_nodup _ hnodup
  have ht2 : toDict (parse_qsl data2) = parse_qsl data2 :=
    toDict_id_of_nodup _ hnodup2
  have hlast : ∀ k, bLookup (toDict (parse_qsl data1)) k =
      bLookup (toDict (parse_qsl data2)) k := by
    intro k
    rw [ht1, ht2]
    exact bLookup_eq_of_perm _ _ hpq hnodup k
  by_cases hd1 : data1 = []
  · have hd2 : data2 = [] := by
      subst hd1
      have h2 : splitOnByte 38 data2 = [[]] :=
        List.perm_singleton.mp hperm.symm
      exact splitOnByte_eq_singleton_nil 38 data2 h2
    subst hd1
    subst hd2
    exact ⟨rfl, rfl, fun h => verifyBytes_no_hash_error w token [] h⟩
  · have hd2 : data2 ≠ [] := by
      intro h2
      subst h2
      have h1 : splitOnByte 38 data1 = [[]] :=
        List.perm_singleton.mp hperm
      exact hd1 (splitOnByte_eq_singleton_nil 38 data1 h1)
    obtain ⟨hdcs, hvb⟩ :=
      verifyBytes_lookup_det w token data1 data2 hd1 hd2 hlast
    exact ⟨hdcs, hvb, fun h => verifyBytes_no_hash_error w token data1 h⟩

/-- Claim C9 witness. -/
theorem verify_perm_invariant_witness :
    dataCheckString (bRemove (toDict (parse_qsl
        (strBytes "a=1&b=2&hash=x"))) hashKey) =
      dataCheckString (bRemove (toDict (parse_qsl
        (strBytes "b=2&a=1&hash=x"))) hashKey) ∧
    verifyBytes trivWebEnv "t" (strBytes "a=1&b=2&hash=x") =
      verifyBytes trivWebEnv "t" (strBytes "b=2&a=1&hash=x") ∧
    ((bLookup (toDict (parse_qsl (strBytes "a=1&b=2&hash=x"))) hashKey =
        Option.none ∨
      bLookup (toDict (parse_qsl (strBytes "a=1&b=2&hash=x"))) hashKey =
        some []) →
     ∃ e, verifyBytes trivWebEnv "t" (strBytes "a=1&b=2&hash=x") =
       .error e) :=
  verify_perm_invariant trivWebEnv "t" (strBytes "a=1&b=2&hash=x")
    (strBytes "b=2&a=1&hash=x") (by decide) (by decide)

/-- Claim C10 (confirmed): verification is a function of the collapsed
key→value map, in which a later occurrence of a key overwrites an earlier
one: two payloads with the same per-key surviving (last) occurrences
produce the same canonical check string, the same computed hash and the
same verification outcome, whatever the secret. -/
theorem duplicate_key_last_wins (w : WebEnv) (token : String)
    (data1 data2 : List Nat) (h1 : data1 ≠ []) (h2 : data2 ≠ [])
    (hlast : ∀ k, bLookup (toDict (parse_qsl data1)) k =
                  bLookup (toDict (parse_qsl data2)) k) :
    dataCheckString (bRemove (toDict (parse_qsl data1)) hashKey) =
      dataCheckString (bRemove (toDict (parse_qsl data2)) hashKey) ∧
    expectedHash w token data1 = expectedHash w token data2 ∧
    verifyBytes w token data1 = verifyBytes w token data2 := by
  obtain ⟨hdcs, hvb⟩ :=
    verifyBytes_lookup_det w token data1 data2 h1 h2 hlast
  refine ⟨hdcs, ?_, hvb⟩
  unfold expectedHash
  rw [hdcs]

/-- Claim C10 witness: `a=1&a=2&hash=h` and `a=0&a=2&hash=h` differ only
in the earlier duplicate occurrence of the key `a`. -/
theorem duplicate_key_last_wins_witness :
    strBytes "a=1&a=2&hash=h" ≠ strBytes "a=0&a=2&hash=h" ∧
    (dataCheckString (bRemove (toDict (parse_qsl
        (strBytes "a=1&a=2&hash=h"))) hashKey) =
      dataCheckString (bRemove (toDict (parse_qsl
        (strBytes "a=0&a=2&hash=h"))) hashKey) ∧
    expectedHash trivWebEnv "t" (strBytes "a=1&a=2&hash=h") =
      expectedHash trivWebEnv "t" (strBytes "a=0&a=2&hash=h") ∧
    verifyBytes trivWebEnv "t" (strBytes "a=1&a=2&hash=h") =
      verifyBytes trivWebEnv "t" (strBytes "a=0&a=2&hash=h")) :=
  ⟨by decide, duplicate_key_last_wins trivWebEnv "t"
    (strBytes "a=1&a=2&hash=h") (strBytes "a=0&a=2&hash=h")
    (by decide) (by decide) (fun k => rfl)⟩

end Lumira
